import Mathlib

/-!
# A model of `Optional<T>` (src/optional.h)

The container is a class template over a payload type `T`.  Its three data
members are embedded one to one (`data_`, `value_`, `is_initialized_`); container
objects live in a store indexed by address, so that `this != &rhs` and
self-assignment mean what they mean in the source.  The payload type's own
special member functions are a parameter (`Payload`), every call of one of
them is recorded in a trace, and the ways a member function can leave other
than by returning (an exception, undefined behaviour, `std::terminate` out of
a `noexcept` function) are explicit results.  Reference parameters (`const T&`,
`T&&`, `Args&&...`) are references here too (`Arg`, `Pack`): they may be bound to
the payload of a container, this one included, and an rvalue bound to a payload
leaves that payload moved-from.
-/

namespace OptionalModel

/-- Address of a container object (`this`, `&rhs`). -/
abbrev Addr := Nat

/-- Exceptions that can leave a member function of the container. -/
inductive Exn where
  /-- The class `BadOptionalAccess` of the source. -/
  | BadOptionalAccess
  /-- Whatever a special member function of the payload type throws. -/
  | payload
  deriving DecidableEq, Repr

/-- The text returned by `BadOptionalAccess::what()`. -/
def Exn.what : Exn → String
  | Exn.BadOptionalAccess => "Bad optional access"
  | Exn.payload => "payload exception"

/-- How a call ends. -/
inductive Res (α : Type) where
  /-- Normal return. -/
  | ok (a : α)
  /-- An exception propagates to the caller. -/
  | thrown (e : Exn)
  /-- The call has undefined behaviour (null or dead pointee accessed). -/
  | ub
  /-- An exception tried to leave a `noexcept` function. -/
  | terminated
  deriving DecidableEq, Repr

/-- The special member functions of the payload type `T`, with `A` the type of
the argument packs `Emplace` forwards.  `none` and `false` stand for leaving by an exception. -/
structure Payload (T A : Type) where
  /-- `T(args...)`. -/
  construct : A → Option T
  /-- `T(const T&)`. -/
  copyCtor : T → Option T
  /-- `T(T&&)`: the new object (if any) and the moved-from source. -/
  moveCtor : T → Option T × T
  /-- `lhs = rhs` with `const T& rhs`: the new left operand, and whether the call returned. -/
  copyAssign : T → T → T × Bool
  /-- `lhs = std::move(rhs)`: the new left operand, the moved-from right operand, and whether the call returned. -/
  moveAssign : T → T → (T × T) × Bool

/-- Kinds of payload operations recorded in the trace. -/
inductive Op where
  | construct
  | copyCtor
  | moveCtor
  | copyAssign
  | moveAssign
  | destroy
  deriving DecidableEq, Repr

/-- One call of a special member function of the payload type. -/
structure Event where
  /-- Which member function ran. -/
  op : Op
  /-- The container whose storage holds the object operated on; `none` for a returned temporary. -/
  place : Option Addr
  /-- Whether the call returned normally. -/
  returned : Bool
  deriving DecidableEq, Repr

/-- The data members of `Optional<T>`:
`alignas(T) char data_[sizeof(T)]` (the object alive in the raw storage, if any),
`T* value_ = nullptr` (`some a` is `&data_[0]` of the container at `a`),
`bool is_initialized_ = false`. -/
structure Optional (T : Type) where
  data_ : Option T := none
  value_ : Option Addr := none
  is_initialized_ : Bool := false
  deriving DecidableEq, Repr

/-- All container objects, and the payload operations run so far (oldest first). -/
structure World (T : Type) where
  objs : Addr → Optional T
  trace : List Event

/-- Computations over the world; the world is kept when a call does not return. -/
def M (T α : Type) : Type := World T → Res α × World T

/-- Return a value without touching the world. -/
def M.pure {T α : Type} (a : α) : M T α := fun w => (Res.ok a, w)

/-- Sequencing: anything but a normal return stops the computation. -/
def M.bind {T α β : Type} (m : M T α) (f : α → M T β) : M T β := fun w =>
  match m w with
  | (Res.ok a, w1) => f a w1
  | (Res.thrown e, w1) => (Res.thrown e, w1)
  | (Res.ub, w1) => (Res.ub, w1)
  | (Res.terminated, w1) => (Res.terminated, w1)

instance {T : Type} : Monad (M T) where
  pure := M.pure
  bind := M.bind

/-- The statement `throw e`. -/
def raise {T α : Type} (e : Exn) : M T α := fun w => (Res.thrown e, w)

/-- Undefined behaviour. -/
def undefined {T α : Type} : M T α := fun w => (Res.ub, w)

/-- A `noexcept` function: an escaping exception calls `std::terminate`. -/
def noexcept {T α : Type} (m : M T α) : M T α := fun w =>
  match m w with
  | (Res.thrown _, w1) => (Res.terminated, w1)
  | r => r

/-- Read the members of the container at `this`. -/
def getObj {T : Type} (this : Addr) : M T (Optional T) := fun w => (Res.ok (w.objs this), w)

/-- Write the members of the container at `this`. -/
def modifyObj {T : Type} (this : Addr) (f : Optional T → Optional T) : M T Unit := fun w =>
  (Res.ok (), { w with objs := Function.update w.objs this (f (w.objs this)) })

/-- Record a payload operation. -/
def emit {T : Type} (e : Event) : M T Unit := fun w =>
  (Res.ok (), { w with trace := w.trace ++ [e] })

/-- The lvalue `*p` for a `T* p`: the storage it designates; null has no pointee. -/
def pointee {T : Type} (p : Option Addr) : M T Addr :=
  match p with
  | none => undefined
  | some a => M.pure a

/-- Access the object in the storage of the container at `a`; there must be a live one. -/
def load {T : Type} (a : Addr) : M T T := fun w =>
  match (w.objs a).data_ with
  | none => (Res.ub, w)
  | some v => (Res.ok v, w)

/-- Set what lives in the storage of the container at `a`. -/
def store {T : Type} (a : Addr) (v : Option T) : M T Unit :=
  modifyObj a (fun o => { o with data_ := v })

/-- The expression `new (&data_[0]) T(value)` with `value` an object that is not the payload
of a container.  Reusing the storage ends the lifetime of what was there; the result is
`&data_[0]`. -/
def newCopy {T A : Type} (P : Payload T A) (this : Addr) (value : T) : M T (Option Addr) := do
  store this none
  match P.copyCtor value with
  | none =>
    emit ⟨Op.copyCtor, some this, false⟩
    raise Exn.payload
  | some t =>
    emit ⟨Op.copyCtor, some this, true⟩
    store this (some t)
    pure (some this)

/-- The expression `new (&data_[0]) T(std::move(value))` for an rvalue `value` that is not
the payload of a container. -/
def newMove {T A : Type} (P : Payload T A) (this : Addr) (value : T) : M T (Option Addr) := do
  store this none
  match (P.moveCtor value).1 with
  | none =>
    emit ⟨Op.moveCtor, some this, false⟩
    raise Exn.payload
  | some t =>
    emit ⟨Op.moveCtor, some this, true⟩
    store this (some t)
    pure (some this)

/-- The expression `new (&data_[0]) T(std::move(r))` where `r` is the payload stored in the
container at `src`, which is left moved-from. -/
def newMoveFrom {T A : Type} (P : Payload T A) (this src : Addr) : M T (Option Addr) := do
  store this none
  let v ← load src
  store src (some (P.moveCtor v).2)
  match (P.moveCtor v).1 with
  | none =>
    emit ⟨Op.moveCtor, some this, false⟩
    raise Exn.payload
  | some t =>
    emit ⟨Op.moveCtor, some this, true⟩
    store this (some t)
    pure (some this)

/-- The expression `new (&data_[0]) T(std::forward<Args>(args)...)` for arguments none of
which is the payload of a container. -/
def newArgs {T A : Type} (P : Payload T A) (this : Addr) (args : A) : M T (Option Addr) := do
  store this none
  match P.construct args with
  | none =>
    emit ⟨Op.construct, some this, false⟩
    raise Exn.payload
  | some t =>
    emit ⟨Op.construct, some this, true⟩
    store this (some t)
    pure (some this)

/-- The statement `p->~T()`. -/
def destroy {T : Type} (p : Option Addr) : M T Unit := do
  let a ← pointee p
  let _ ← load a
  emit ⟨Op.destroy, some a, true⟩
  store a none

/-- The statement `*p = value` with `value` an object that is not the payload of a
container (or the value already read from one). -/
def assignCopy {T A : Type} (P : Payload T A) (p : Option Addr) (value : T) : M T Unit := do
  let a ← pointee p
  let cur ← load a
  store a (some (P.copyAssign cur value).1)
  emit ⟨Op.copyAssign, some a, (P.copyAssign cur value).2⟩
  if (P.copyAssign cur value).2 then pure () else raise Exn.payload

/-- The statement `*p = std::move(value)` for an rvalue `value` that is not the payload of
a container. -/
def assignMove {T A : Type} (P : Payload T A) (p : Option Addr) (value : T) : M T Unit := do
  let a ← pointee p
  let cur ← load a
  store a (some (P.moveAssign cur value).1.1)
  emit ⟨Op.moveAssign, some a, (P.moveAssign cur value).2⟩
  if (P.moveAssign cur value).2 then pure () else raise Exn.payload

/-- The statement `*p = std::move(*q)`: the object at `q` is left moved-from.  (When both
designate the same storage the left operand is written last.) -/
def assignMoveFrom {T A : Type} (P : Payload T A) (p q : Option Addr) : M T Unit := do
  let b ← pointee q
  let v ← load b
  let a ← pointee p
  let cur ← load a
  store b (some (P.moveAssign cur v).1.2)
  store a (some (P.moveAssign cur v).1.1)
  emit ⟨Op.moveAssign, some a, (P.moveAssign cur v).2⟩
  if (P.moveAssign cur v).2 then pure () else raise Exn.payload

/-- What a reference parameter (`const T&`, `T&&`) is bound to: an object that is not the
payload of any container (a local, a temporary), or the payload in the storage of the
container at `a` (the caller wrote `*other` or `std::move(*other)`). -/
inductive Arg (T : Type) where
  | ext (v : T)
  | payload (a : Addr)

/-- The object the parameter is bound to, as it is in the world `w`; `none` when it is
bound to storage in which nothing is alive. -/
def Arg.read {T : Type} (w : World T) : Arg T → Option T
  | Arg.ext v => some v
  | Arg.payload a => (w.objs a).data_

/-- Whether the parameter is bound to the payload of the container at `this`. -/
def Arg.refers {T : Type} : Arg T → Addr → Bool
  | Arg.ext _, _ => false
  | Arg.payload a, this => a == this

/-- The expression `new (&data_[0]) T(value)` with `const T& value` a reference: the storage
is reused first, then the constructor reads the object `value` is bound to. -/
def newCopyRef {T A : Type} (P : Payload T A) (this : Addr) : Arg T → M T (Option Addr)
  | Arg.ext v => newCopy P this v
  | Arg.payload a => do
    store this none
    let v ← load a
    newCopy P this v

/-- The expression `new (&data_[0]) T(std::move(value))` with `T&& value` a reference: a
payload it is bound to is left moved-from. -/
def newMoveRef {T A : Type} (P : Payload T A) (this : Addr) : Arg T → M T (Option Addr)
  | Arg.ext v => newMove P this v
  | Arg.payload a => newMoveFrom P this a

/-- The statement `*p = value` with `const T& value` a reference. -/
def assignCopyRef {T A : Type} (P : Payload T A) (p : Option Addr) : Arg T → M T Unit
  | Arg.ext v => assignCopy P p v
  | Arg.payload b => do
    let v ← load b
    assignCopy P p v

/-- The statement `*p = std::move(value)` with `T&& value` a reference: a payload it is
bound to is left moved-from. -/
def assignMoveRef {T A : Type} (P : Payload T A) (p : Option Addr) : Arg T → M T Unit
  | Arg.ext v => assignMove P p v
  | Arg.payload b => assignMoveFrom P p (some b)

/-- The forwarded argument pack `Args&&... args` of `Emplace`: arguments none of which is
the payload of a container, or one reference to the payload of the container at `a`,
forwarded as an lvalue (`Emplace(*other)`, the copy constructor runs) or as an rvalue
(`Emplace(std::move(*other))`, the move constructor runs). -/
inductive Pack (T A : Type) where
  | args (x : A)
  | lvalue (a : Addr)
  | rvalue (a : Addr)

/-- Whether the pack refers to the payload of the container at `this`. -/
def Pack.refers {T A : Type} : Pack T A → Addr → Bool
  | Pack.args _, _ => false
  | Pack.lvalue a, this => a == this
  | Pack.rvalue a, this => a == this

/-- The value `T(args...)` constructs from the pack, read in the world `w`; `none` when the
constructor throws or the pack refers to storage in which nothing is alive. -/
def Pack.eval {T A : Type} (P : Payload T A) (w : World T) : Pack T A → Option T
  | Pack.args x => P.construct x
  | Pack.lvalue a => (w.objs a).data_.bind P.copyCtor
  | Pack.rvalue a => (w.objs a).data_.bind (fun v => (P.moveCtor v).1)

/-- The expression `new (&data_[0]) T(std::forward<Args>(args)...)` with the pack a pack of
references. -/
def newPack {T A : Type} (P : Payload T A) (this : Addr) : Pack T A → M T (Option Addr)
  | Pack.args x => newArgs P this x
  | Pack.lvalue a => newCopyRef P this (Arg.payload a)
  | Pack.rvalue a => newMoveRef P this (Arg.payload a)

/-- Whether constructing from the pack throws in the world `w`: the selected constructor of
the payload type runs on a live object and throws. -/
def Pack.throws {T A : Type} (P : Payload T A) (w : World T) : Pack T A → Bool
  | Pack.args x => (P.construct x).isNone
  | Pack.lvalue a =>
    match (w.objs a).data_ with
    | some v => (P.copyCtor v).isNone
    | none => false
  | Pack.rvalue a =>
    match (w.objs a).data_ with
    | some v => (P.moveCtor v).1.isNone
    | none => false

/-- The constructor of the payload type the pack selects. -/
def Pack.op {T A : Type} : Pack T A → Op
  | Pack.args _ => Op.construct
  | Pack.lvalue _ => Op.copyCtor
  | Pack.rvalue _ => Op.moveCtor

/-- Whether the pack hands over the payload of the container at `a` as an rvalue, to be
moved from. -/
def Pack.movesFrom {T A : Type} : Pack T A → Addr → Bool
  | Pack.rvalue b, a => b == a
  | _, _ => false

/-- The move construction of a returned temporary, `return std::move(*p)` in a function
returning `T`: the pointee is left moved-from. -/
def moveOut {T A : Type} (P : Payload T A) (p : Option Addr) : M T T := do
  let a ← pointee p
  let v ← load a
  store a (some (P.moveCtor v).2)
  match (P.moveCtor v).1 with
  | none =>
    emit ⟨Op.moveCtor, none, false⟩
    raise Exn.payload
  | some t =>
    emit ⟨Op.moveCtor, none, true⟩
    pure t

/-- The members of an object under construction before the constructor has written them:
raw storage and the default member initializers `value_ = nullptr`,
`is_initialized_ = false` (a mem-initializer or the constructor body overwrites them). -/
def memberInit {T : Type} (this : Addr) : M T Unit :=
  modifyObj this (fun _ => { data_ := none, value_ := none, is_initialized_ := false })

/-- `bool HasValue() const`. -/
def Optional.HasValue {T : Type} (this : Addr) : M T Bool := do
  let o ← getObj this
  pure o.is_initialized_

/-- `T& operator*() &`: the storage `value_` designates, unchecked. -/
def Optional.star {T : Type} (this : Addr) : M T Addr := do
  let o ← getObj this
  pointee o.value_

/-- `T operator*() &&`. -/
def Optional.star_rvalue {T A : Type} (P : Payload T A) (this : Addr) : M T T := do
  let o ← getObj this
  moveOut P o.value_

/-- `const T& operator*() const&`. -/
def Optional.star_const {T : Type} (this : Addr) : M T Addr := do
  let o ← getObj this
  pointee o.value_

/-- `T* operator->()`. -/
def Optional.arrow {T : Type} (this : Addr) : M T (Option Addr) := do
  let o ← getObj this
  pure o.value_

/-- `const T* operator->() const`. -/
def Optional.arrow_const {T : Type} (this : Addr) : M T (Option Addr) := do
  let o ← getObj this
  pure o.value_

/-- `T& Value() &`. -/
def Optional.Value {T : Type} (this : Addr) : M T Addr := do
  if !(← Optional.HasValue this) then raise Exn.BadOptionalAccess
  let o ← getObj this
  pointee o.value_

/-- `T Value() &&`. -/
def Optional.Value_rvalue {T A : Type} (P : Payload T A) (this : Addr) : M T T := do
  if !(← Optional.HasValue this) then raise Exn.BadOptionalAccess
  let o ← getObj this
  moveOut P o.value_

/-- `const T& Value() const&`. -/
def Optional.Value_const {T : Type} (this : Addr) : M T Addr := do
  if !(← Optional.HasValue this) then raise Exn.BadOptionalAccess
  let o ← getObj this
  pointee o.value_

/-- `Optional() = default`. -/
def Optional.ctor_default {T : Type} (this : Addr) : M T Unit :=
  memberInit this

/-- `Optional(const T& value)`. -/
def Optional.ctor_value {T A : Type} (P : Payload T A) (this : Addr) (value : Arg T) :
    M T Unit := do
  memberInit this
  let p ← newCopyRef P this value
  modifyObj this (fun o => { o with value_ := p })
  modifyObj this (fun o => { o with is_initialized_ := true })

/-- `Optional(T&& value)`. -/
def Optional.ctor_rvalue {T A : Type} (P : Payload T A) (this : Addr) (value : Arg T) :
    M T Unit := do
  memberInit this
  let p ← newMoveRef P this value
  modifyObj this (fun o => { o with value_ := p })
  modifyObj this (fun o => { o with is_initialized_ := true })

/-- `Optional(const Optional& other)`. -/
def Optional.ctor_copy {T A : Type} (P : Payload T A) (this other : Addr) : M T Unit := do
  memberInit this
  if (← Optional.HasValue other) then
    let r ← Optional.star_const other
    let v ← load r
    let p ← newCopy P this v
    modifyObj this (fun o => { o with value_ := p })
    let src ← getObj other
    modifyObj this (fun o => { o with is_initialized_ := src.is_initialized_ })

/-- `Optional(Optional&& other) noexcept`. -/
def Optional.ctor_move {T A : Type} (P : Payload T A) (this other : Addr) : M T Unit :=
  noexcept do
    memberInit this
    if (← Optional.HasValue other) then
      let r ← Optional.star other
      let p ← newMoveFrom P this r
      modifyObj this (fun o => { o with value_ := p })
      let src ← getObj other
      modifyObj this (fun o => { o with is_initialized_ := src.is_initialized_ })

/-- `Optional& operator=(const T& value)`. -/
def Optional.assign_value {T A : Type} (P : Payload T A) (this : Addr) (value : Arg T) :
    M T Unit := do
  if (← Optional.HasValue this) then
    let o ← getObj this
    assignCopyRef P o.value_ value
  else
    modifyObj this (fun o => { o with is_initialized_ := true })
    let p ← newCopyRef P this value
    modifyObj this (fun o => { o with value_ := p })

/-- `Optional& operator=(T&& rhs)`. -/
def Optional.assign_rvalue {T A : Type} (P : Payload T A) (this : Addr) (rhs : Arg T) :
    M T Unit := do
  if (← Optional.HasValue this) then
    let o ← getObj this
    assignMoveRef P o.value_ rhs
  else
    modifyObj this (fun o => { o with is_initialized_ := true })
    let p ← newMoveRef P this rhs
    modifyObj this (fun o => { o with value_ := p })

/-- `Optional& operator=(const Optional& rhs)`. -/
def Optional.assign_copy {T A : Type} (P : Payload T A) (this rhs : Addr) : M T Unit := do
  if !(← Optional.HasValue this) && (← Optional.HasValue rhs) then
    let r ← Optional.star_const rhs
    let v ← load r
    let p ← newCopy P this v
    modifyObj this (fun o => { o with value_ := p })
    modifyObj this (fun o => { o with is_initialized_ := true })
  else if (← Optional.HasValue this) && !(← Optional.HasValue rhs) then
    let o ← getObj this
    destroy o.value_
    modifyObj this (fun o => { o with is_initialized_ := false })
  else if (← Optional.HasValue this) && (← Optional.HasValue rhs) && this != rhs then
    let o ← getObj this
    let src ← getObj rhs
    let b ← pointee src.value_
    let v ← load b
    assignCopy P o.value_ v

/-- `Optional& operator=(Optional&& rhs) noexcept`. -/
def Optional.assign_move {T A : Type} (P : Payload T A) (this rhs : Addr) : M T Unit :=
  noexcept do
    if !(← Optional.HasValue this) && (← Optional.HasValue rhs) then
      let r ← Optional.star rhs
      let p ← newMoveFrom P this r
      modifyObj this (fun o => { o with value_ := p })
      modifyObj this (fun o => { o with is_initialized_ := true })
    else if (← Optional.HasValue this) && !(← Optional.HasValue rhs) then
      let o ← getObj this
      destroy o.value_
      modifyObj this (fun o => { o with is_initialized_ := false })
    else if (← Optional.HasValue this) && (← Optional.HasValue rhs) && this != rhs then
      let o ← getObj this
      let src ← getObj rhs
      assignMoveFrom P o.value_ src.value_

/-- `~Optional()`. -/
def Optional.dtor {T : Type} (this : Addr) : M T Unit := do
  if (← Optional.HasValue this) then
    let o ← getObj this
    destroy o.value_

/-- `void Reset()`. -/
def Optional.Reset {T : Type} (this : Addr) : M T Unit := do
  if (← Optional.HasValue this) then
    let o ← getObj this
    destroy o.value_
    modifyObj this (fun o => { o with is_initialized_ := false })

/-- `void Emplace(Args&&... args)`. -/
def Optional.Emplace {T A : Type} (P : Payload T A) (this : Addr) (args : Pack T A) :
    M T Unit := do
  Optional.Reset this
  let p ← newPack P this args
  modifyObj this (fun o => { o with value_ := p })
  modifyObj this (fun o => { o with is_initialized_ := true })

/-- A value-semantic payload type: copies are equal, a moved-from number is 0, nothing
throws. -/
def natPayload : Payload Nat Nat where
  construct := fun a => some a
  copyCtor := fun v => some v
  moveCtor := fun v => (some v, 0)
  copyAssign := fun _ b => (b, true)
  moveAssign := fun _ b => ((b, 0), true)

/-- Memory in which no container has been constructed and nothing has run. -/
def World.fresh {T : Type} : World T := ⟨fun _ => {}, []⟩

/-- What lives in the storage of the container at `a`. -/
def World.payload {T : Type} (w : World T) (a : Addr) : Option T := (w.objs a).data_

/-- The object a returned `T&` designates, read in the world the call left. -/
def readRef {T : Type} (r : Res Addr × World T) : Option T :=
  match r.1 with
  | Res.ok a => r.2.payload a
  | _ => none

/-- The state Engaged of the specification, holding `v`: the flag is set and `value_`
designates the own storage, in which `v` is alive. -/
def Engaged {T : Type} (w : World T) (this : Addr) (v : T) : Prop :=
  (w.objs this).is_initialized_ = true ∧ (w.objs this).value_ = some this ∧
    (w.objs this).data_ = some v

/-- The state Empty of the specification: the flag is clear and the storage is raw. -/
def Empty {T : Type} (w : World T) (this : Addr) : Prop :=
  (w.objs this).is_initialized_ = false ∧ (w.objs this).data_ = none

/-- The container states of the specification: Empty, or Engaged with some payload. -/
def WF {T : Type} (w : World T) (this : Addr) : Prop :=
  Empty w this ∨ ∃ v, Engaged w this v

/-- A container holding 5 at address 0, built by `Optional(const T&)`. -/
def w5 : World Nat := (Optional.ctor_value natPayload 0 (Arg.ext 5) World.fresh).2

/-- Containers at addresses 0 (holding 5) and 1 (holding 8). -/
def w58 : World Nat := (Optional.ctor_value natPayload 1 (Arg.ext 8) w5).2

/-- Containers at addresses 0 (holding 5) and 1 (default-constructed). -/
def w5e : World Nat := (Optional.ctor_default 1 w5).2

/-- A payload type whose constructors throw on the value 0 (`T(0)`, and copying or moving
from a `T` holding 0); a moved-from object holds 1, assignment never throws. -/
def pickyPayload : Payload Nat Nat where
  construct := fun a => if a = 0 then none else some a
  copyCtor := fun v => if v = 0 then none else some v
  moveCtor := fun v => if v = 0 then (none, v) else (some v, 1)
  copyAssign := fun _ b => (b, true)
  moveAssign := fun _ b => ((b, 1), true)

/-- A payload type none of whose special member functions throws. -/
structure Payload.NoThrow {T A : Type} (P : Payload T A) : Prop where
  construct : ∀ args, (P.construct args).isSome = true
  copyCtor : ∀ v, (P.copyCtor v).isSome = true
  moveCtor : ∀ v, (P.moveCtor v).1.isSome = true
  copyAssign : ∀ a b, (P.copyAssign a b).2 = true
  moveAssign : ∀ a b, (P.moveAssign a b).2 = true

/-- The engagement invariant of the specification at the container at `a`: the flag is
true iff the storage holds a constructed, not yet destroyed payload. -/
def FlagIffLive {T : Type} (w : World T) (a : Addr) : Prop :=
  (w.objs a).is_initialized_ = true ↔ (w.objs a).data_.isSome = true

/-- The engagement invariant together with what makes it inductive in the source: while
the flag is set, `value_` designates the container's own storage. -/
def Inv {T : Type} (w : World T) (a : Addr) : Prop :=
  FlagIffLive w a ∧ ((w.objs a).is_initialized_ = true → (w.objs a).value_ = some a)

/-- Whether the event is a payload construction that completed in the storage of `a`. -/
def Event.constructsAt (e : Event) (a : Addr) : Bool :=
  e.place == some a && e.returned &&
    (e.op == Op.construct || e.op == Op.copyCtor || e.op == Op.moveCtor)

/-- Whether the event is a payload destruction in the storage of `a`. -/
def Event.destroysAt (e : Event) (a : Addr) : Bool :=
  e.place == some a && e.op == Op.destroy

/-- Number of payloads constructed in the storage of `a`. -/
def constructed (tr : List Event) (a : Addr) : Nat := tr.countP (fun e => e.constructsAt a)

/-- Number of payloads destroyed in the storage of `a`. -/
def destroyed (tr : List Event) (a : Addr) : Nat := tr.countP (fun e => e.destroysAt a)

/-- Number of live payload instances in the storage of `a`, by the members. -/
def live {T : Type} (w : World T) (a : Addr) : Nat :=
  if (w.objs a).data_.isSome then 1 else 0

/-- The live-instance count of a counting payload type agrees with the storage:
constructions are destructions plus what is alive. -/
def Balanced {T : Type} (w : World T) (a : Addr) : Prop :=
  constructed w.trace a = destroyed w.trace a + live w a

/-- The constructors of the container. -/
inductive Ctor (T : Type) where
  | empty
  | value (v : Arg T)
  | rvalue (v : Arg T)
  | copy (other : Addr)
  | move (other : Addr)

/-- The mutating member functions of the container. -/
inductive Cmd (T A : Type) where
  | assign_value (v : Arg T)
  | assign_rvalue (v : Arg T)
  | assign_copy (rhs : Addr)
  | assign_move (rhs : Addr)
  | Reset
  | Emplace (args : Pack T A)

/-- Run a constructor for the container at `this`. -/
def Ctor.run {T A : Type} (P : Payload T A) (this : Addr) : Ctor T → M T Unit
  | Ctor.empty => Optional.ctor_default this
  | Ctor.value v => Optional.ctor_value P this v
  | Ctor.rvalue v => Optional.ctor_rvalue P this v
  | Ctor.copy other => Optional.ctor_copy P this other
  | Ctor.move other => Optional.ctor_move P this other

/-- Run a mutating member function on the container at `this`. -/
def Cmd.run {T A : Type} (P : Payload T A) (this : Addr) : Cmd T A → M T Unit
  | Cmd.assign_value v => Optional.assign_value P this v
  | Cmd.assign_rvalue v => Optional.assign_rvalue P this v
  | Cmd.assign_copy rhs => Optional.assign_copy P this rhs
  | Cmd.assign_move rhs => Optional.assign_move P this rhs
  | Cmd.Reset => Optional.Reset this
  | Cmd.Emplace args => Optional.Emplace P this args

/-- Run member functions on the container at `this`, one after the other.  An exception a
member function throws is caught by the caller (`try { ... } catch (...) { }`), who goes
on with the next one: the container is still in scope. -/
def runCmds {T A : Type} (P : Payload T A) (this : Addr) : List (Cmd T A) → M T Unit
  | [] => M.pure ()
  | c :: cs => fun w =>
    match c.run P this w with
    | (Res.ok _, w1) => runCmds P this cs w1
    | (Res.thrown _, w1) => runCmds P this cs w1
    | (Res.ub, w1) => (Res.ub, w1)
    | (Res.terminated, w1) => (Res.terminated, w1)

/-- A container at `this` is constructed and then mutated. -/
def alive {T A : Type} (P : Payload T A) (this : Addr) (c : Ctor T)
    (cmds : List (Cmd T A)) : M T Unit :=
  M.bind (c.run P this) (fun _ => runCmds P this cmds)

/-- The whole life of a container at `this`: constructed, mutated, and destroyed when it
leaves scope, also after a member function threw.  (A container whose constructor throws
never existed and is not destroyed.) -/
def lifetime {T A : Type} (P : Payload T A) (this : Addr) (c : Ctor T)
    (cmds : List (Cmd T A)) : M T Unit :=
  M.bind (alive P this c cmds) (fun _ => Optional.dtor this)

/-- A member function keeps the invariant: called where it holds at every container, it
holds at every container when the call returns. -/
def Preserves {T α : Type} (m : M T α) : Prop :=
  ∀ w : World T, (∀ a, Inv w a) → ∀ x, (m w).1 = Res.ok x → ∀ a, Inv (m w).2 a

/-- A constructor establishes the invariant: run for a new container at `this` where the
invariant holds at every other container, it holds at every container when the
constructor returns. -/
def Establishes {T α : Type} (this : Addr) (m : M T α) : Prop :=
  ∀ w : World T, (∀ a, a ≠ this → Inv w a) → ∀ x, (m w).1 = Res.ok x → ∀ a, Inv (m w).2 a

/-- A default-constructed container at address 0 of fresh memory. -/
def wEmpty : World Nat := (Optional.ctor_default 0 World.fresh).2

/-- A container at address 0 that held 5 and was `Reset()`: `value_` still designates the
storage, in which nothing is alive. -/
def wReset : World Nat :=
  (Optional.Reset 0 (Optional.ctor_value pickyPayload 0 (Arg.ext 5) World.fresh).2).2

/-- Containers of the throwing payload type at addresses 0 (holding 5) and 1
(default-constructed). -/
def wPicky : World Nat :=
  (Optional.ctor_default 1 (Optional.ctor_value pickyPayload 0 (Arg.ext 5) World.fresh).2).2

attribute [simp] M.bind M.pure raise undefined noexcept getObj modifyObj emit pointee load
  store newCopy newMove newMoveFrom newArgs destroy assignCopy assignMove assignMoveFrom
  moveOut memberInit readRef World.payload newCopyRef newMoveRef assignCopyRef assignMoveRef
  newPack Arg.read Arg.refers Pack.refers Pack.eval
  Pack.throws Pack.op Pack.movesFrom

/-- C1: the checked accessor `Value()` (overloads `&`, `const&`, `&&`) leaves by
`BadOptionalAccess` exactly when `HasValue()` is false; a default-constructed container
reports `HasValue() == false` and `Value()` on it throws `BadOptionalAccess`; on an Engaged
container `Value()` returns (a reference to, or for `&&` a move of) the stored payload. -/
theorem C1_Value_checked {T A : Type} (P : Payload T A) (w : World T) (this : Addr) :
    ((Optional.Value this w).1 = Res.thrown Exn.BadOptionalAccess ↔
        (Optional.HasValue this w).1 = Res.ok false) ∧
    ((Optional.Value_const this w).1 = Res.thrown Exn.BadOptionalAccess ↔
        (Optional.HasValue this w).1 = Res.ok false) ∧
    ((Optional.Value_rvalue P this w).1 = Res.thrown Exn.BadOptionalAccess ↔
        (Optional.HasValue this w).1 = Res.ok false) ∧
    ((Optional.HasValue this (Optional.ctor_default this w).2).1 = Res.ok false ∧
      (Optional.Value this (Optional.ctor_default this w).2).1
        = Res.thrown Exn.BadOptionalAccess ∧
      (Optional.Value_const this (Optional.ctor_default this w).2).1
        = Res.thrown Exn.BadOptionalAccess ∧
      (Optional.Value_rvalue P this (Optional.ctor_default this w).2).1
        = Res.thrown Exn.BadOptionalAccess) ∧
    (∀ v, Engaged w this v →
      Optional.Value this w = (Res.ok this, w) ∧
      Optional.Value_const this w = (Res.ok this, w) ∧
      readRef (Optional.Value this w) = some v ∧
      readRef (Optional.Value_const this w) = some v ∧
      ((P.moveCtor v).1 = some v → (Optional.Value_rvalue P this w).1 = Res.ok v)) := by
  refine ⟨?_, ?_, ?_, ?_, ?_⟩
  · cases h : (w.objs this).is_initialized_ <;> cases h2 : (w.objs this).value_ <;>
      simp [Optional.Value, Optional.HasValue, bind, pure, h, h2]
  · cases h : (w.objs this).is_initialized_ <;> cases h2 : (w.objs this).value_ <;>
      simp [Optional.Value_const, Optional.HasValue, bind, pure, h, h2]
  · cases h : (w.objs this).is_initialized_ <;> cases h2 : (w.objs this).value_ <;>
      simp [Optional.Value_rvalue, Optional.HasValue, bind, pure, h, h2]
    rename_i a
    cases h3 : (w.objs a).data_ <;> simp [h3]
    cases h4 : (P.moveCtor _).1 <;> simp [h4]
  · simp [Optional.Value, Optional.Value_const, Optional.Value_rvalue, Optional.HasValue,
      Optional.ctor_default, bind, pure]
  · rintro v ⟨h1, h2, h3⟩
    simp [Optional.Value, Optional.Value_const, Optional.Value_rvalue, Optional.HasValue,
      bind, pure, h1, h2, h3]
    intro h4
    simp [h4]

/-- Witness of C1 on the container holding 5. -/
theorem C1_Value_checked_witness :
    Optional.Value 0 w5 = (Res.ok 0, w5) ∧ readRef (Optional.Value 0 w5) = some 5 ∧
      (Optional.Value_rvalue natPayload 0 w5).1 = Res.ok 5 :=
  have h := (C1_Value_checked natPayload w5 0).2.2.2.2 5 ⟨rfl, rfl, rfl⟩
  ⟨h.1, h.2.2.1, h.2.2.2.2 rfl⟩

/-- C2: a container constructed from a payload value `v`, by `Optional(const T&)` or by
`Optional(T&&)`, reports `HasValue() == true`, and `Value()` and `operator*` yield a payload
equal to `v` (the payload type's copy and move constructors being value-preserving at `v`;
the rvalue overloads of the accessors move the payload out).  The constructor's parameter
is a reference bound to any live object holding `v`: an object outside all containers
(`Arg.ext v`, for every `v`), or the payload of another container. -/
theorem C2_construct_from_value {T A : Type} (P : Payload T A) (w : World T) (this : Addr)
    (arg : Arg T) (v : T) (hv : arg.read w = some v) (hself : arg.refers this = false) :
    (P.copyCtor v = some v →
      (Optional.ctor_value P this arg w).1 = Res.ok () ∧
      Engaged (Optional.ctor_value P this arg w).2 this v ∧
      (Optional.HasValue this (Optional.ctor_value P this arg w).2).1 = Res.ok true ∧
      readRef (Optional.Value this (Optional.ctor_value P this arg w).2) = some v ∧
      readRef (Optional.Value_const this (Optional.ctor_value P this arg w).2) = some v ∧
      readRef (Optional.star this (Optional.ctor_value P this arg w).2) = some v ∧
      readRef (Optional.star_const this (Optional.ctor_value P this arg w).2) = some v ∧
      ((P.moveCtor v).1 = some v →
        (Optional.Value_rvalue P this (Optional.ctor_value P this arg w).2).1 = Res.ok v ∧
        (Optional.star_rvalue P this (Optional.ctor_value P this arg w).2).1 = Res.ok v)) ∧
    ((P.moveCtor v).1 = some v →
      (Optional.ctor_rvalue P this arg w).1 = Res.ok () ∧
      Engaged (Optional.ctor_rvalue P this arg w).2 this v ∧
      (Optional.HasValue this (Optional.ctor_rvalue P this arg w).2).1 = Res.ok true ∧
      readRef (Optional.Value this (Optional.ctor_rvalue P this arg w).2) = some v ∧
      readRef (Optional.Value_const this (Optional.ctor_rvalue P this arg w).2) = some v ∧
      readRef (Optional.star this (Optional.ctor_rvalue P this arg w).2) = some v ∧
      readRef (Optional.star_const this (Optional.ctor_rvalue P this arg w).2) = some v ∧
      (Optional.Value_rvalue P this (Optional.ctor_rvalue P this arg w).2).1 = Res.ok v ∧
      (Optional.star_rvalue P this (Optional.ctor_rvalue P this arg w).2).1 = Res.ok v) := by
  cases arg with
  | ext u =>
    simp at hv
    subst hv
    constructor
    · intro h
      simp [Optional.ctor_value, Optional.Value, Optional.Value_const, Optional.Value_rvalue,
        Optional.star, Optional.star_const, Optional.star_rvalue, Optional.HasValue, Engaged,
        bind, pure, h]
      intro h4
      simp [h4]
    · intro h
      simp [Optional.ctor_rvalue, Optional.Value, Optional.Value_const,
        Optional.Value_rvalue, Optional.star, Optional.star_const, Optional.star_rvalue,
        Optional.HasValue, Engaged, bind, pure, h]
  | payload b =>
    have hb : b ≠ this := by simpa using hself
    have hb2 : this ≠ b := fun e => hb e.symm
    simp at hv
    constructor
    · intro h
      simp [Optional.ctor_value, Optional.Value, Optional.Value_const, Optional.Value_rvalue,
        Optional.star, Optional.star_const, Optional.star_rvalue, Optional.HasValue, Engaged,
        bind, pure, h, hv, hb, hb2]
      intro h4
      simp [h4]
    · intro h
      simp [Optional.ctor_rvalue, Optional.Value, Optional.Value_const,
        Optional.Value_rvalue, Optional.star, Optional.star_const, Optional.star_rvalue,
        Optional.HasValue, Engaged, bind, pure, h, hv, hb, hb2]

/-- Witness of C2: constructing from 5 at address 0 of fresh memory, and constructing at
address 2 from the payload of the container holding 8. -/
theorem C2_construct_from_value_witness :
    Engaged (Optional.ctor_value natPayload 0 (Arg.ext 5) World.fresh).2 0 5 ∧
      readRef (Optional.star 0 (Optional.ctor_value natPayload 0 (Arg.ext 5) World.fresh).2)
        = some 5 ∧
      Engaged (Optional.ctor_rvalue natPayload 0 (Arg.ext 5) World.fresh).2 0 5 ∧
      readRef (Optional.Value 0 (Optional.ctor_rvalue natPayload 0 (Arg.ext 5) World.fresh).2)
        = some 5 ∧
      Engaged (Optional.ctor_value natPayload 2 (Arg.payload 1) w58).2 2 8 ∧
      Engaged (Optional.ctor_rvalue natPayload 2 (Arg.payload 1) w58).2 2 8 :=
  have h := C2_construct_from_value natPayload World.fresh 0 (Arg.ext 5) 5 rfl rfl
  have g := C2_construct_from_value natPayload w58 2 (Arg.payload 1) 8 rfl rfl
  ⟨(h.1 rfl).2.1, (h.1 rfl).2.2.2.2.2.1, (h.2 rfl).2.1, (h.2 rfl).2.2.2.1,
   (g.1 rfl).2.1, (g.2 rfl).2.1⟩

/-- The claim C3 as stated fails when the argument pack refers to the container's own
payload: `o.Emplace(*o)` and `o.Emplace(std::move(*o))` on the container holding 5, for
which `T(args...)` succeeds with 5, run `Reset()` first and then construct from the
destroyed payload, which is undefined behaviour; the container is not left Engaged. -/
theorem C3_Emplace_own_payload_counterexample :
    WF w5 0 ∧ Pack.eval natPayload w5 (Pack.lvalue 0) = some 5 ∧
    (Optional.Emplace natPayload 0 (Pack.lvalue 0) w5).1 = Res.ub ∧
    ¬ Engaged (Optional.Emplace natPayload 0 (Pack.lvalue 0) w5).2 0 5 ∧
    Pack.eval natPayload w5 (Pack.rvalue 0) = some 5 ∧
    (Optional.Emplace natPayload 0 (Pack.rvalue 0) w5).1 = Res.ub ∧
    ¬ Engaged (Optional.Emplace natPayload 0 (Pack.rvalue 0) w5).2 0 5 := by
  refine ⟨Or.inr ⟨5, rfl, rfl, rfl⟩, rfl, rfl, ?_, rfl, rfl, ?_⟩
  · intro h
    exact absurd h.1 (by decide)
  · intro h
    exact absurd h.1 (by decide)

/-- C3 (amended): from every container state (Empty, or Engaged with any payload) and for
every argument pack that does not refer to the container's own payload and on which
`T(args...)` succeeds with result `t`, `Emplace(args...)` returns and leaves the container
Engaged with payload `t`; the members it leaves are the same whatever the prior state
was. -/
theorem C3_Emplace {T A : Type} (P : Payload T A) (w : World T) (this : Addr)
    (args : Pack T A) (t : T) (hs : WF w this) (hself : args.refers this = false)
    (hc : args.eval P w = some t) :
    (Optional.Emplace P this args w).1 = Res.ok () ∧
    Engaged (Optional.Emplace P this args w).2 this t ∧
    (Optional.Emplace P this args w).2.objs this
      = { data_ := some t, value_ := some this, is_initialized_ := true } ∧
    readRef (Optional.Value this (Optional.Emplace P this args w).2) = some t := by
  cases args with
  | args x =>
    simp at hc
    rcases hs with ⟨h1, h3⟩ | ⟨v, h1, h2, h3⟩
    · simp [Optional.Emplace, Optional.Reset, Optional.Value, Optional.HasValue, Engaged,
        bind, pure, h1, h3, hc]
    · simp [Optional.Emplace, Optional.Reset, Optional.Value, Optional.HasValue, Engaged,
        bind, pure, h1, h2, h3, hc]
  | lvalue b =>
    have hb : b ≠ this := by simpa using hself
    have hb2 : this ≠ b := fun e => hb e.symm
    obtain ⟨u, hu, hc⟩ := Option.bind_eq_some.1 hc
    rcases hs with ⟨h1, h3⟩ | ⟨v, h1, h2, h3⟩
    · simp [Optional.Emplace, Optional.Reset, Optional.Value, Optional.HasValue, Engaged,
        bind, pure, h1, h3, hc, hu, hb, hb2]
    · simp [Optional.Emplace, Optional.Reset, Optional.Value, Optional.HasValue, Engaged,
        bind, pure, h1, h2, h3, hc, hu, hb, hb2]
  | rvalue b =>
    have hb : b ≠ this := by simpa using hself
    have hb2 : this ≠ b := fun e => hb e.symm
    obtain ⟨u, hu, hc⟩ := Option.bind_eq_some.1 hc
    rcases hs with ⟨h1, h3⟩ | ⟨v, h1, h2, h3⟩
    · simp [Optional.Emplace, Optional.Reset, Optional.Value, Optional.HasValue, Engaged,
        bind, pure, h1, h3, hc, hu, hb, hb2]
    · simp [Optional.Emplace, Optional.Reset, Optional.Value, Optional.HasValue, Engaged,
        bind, pure, h1, h2, h3, hc, hu, hb, hb2]

/-- Witness of C3: `Emplace(7)` on the container holding 5 and on the default-constructed
one, and `Emplace(*other)` with `other` the container holding 5. -/
theorem C3_Emplace_witness :
    ((Optional.Emplace natPayload 0 (Pack.args 7) w5e).1 = Res.ok () ∧
      Engaged (Optional.Emplace natPayload 0 (Pack.args 7) w5e).2 0 7) ∧
    ((Optional.Emplace natPayload 1 (Pack.args 7) w5e).1 = Res.ok () ∧
      Engaged (Optional.Emplace natPayload 1 (Pack.args 7) w5e).2 1 7) ∧
    ((Optional.Emplace natPayload 1 (Pack.lvalue 0) w5e).1 = Res.ok () ∧
      Engaged (Optional.Emplace natPayload 1 (Pack.lvalue 0) w5e).2 1 5) :=
  ⟨⟨(C3_Emplace natPayload w5e 0 (Pack.args 7) 7 (Or.inr ⟨5, rfl, rfl, rfl⟩) rfl rfl).1,
    (C3_Emplace natPayload w5e 0 (Pack.args 7) 7 (Or.inr ⟨5, rfl, rfl, rfl⟩) rfl rfl).2.1⟩,
   ⟨(C3_Emplace natPayload w5e 1 (Pack.args 7) 7 (Or.inl ⟨rfl, rfl⟩) rfl rfl).1,
    (C3_Emplace natPayload w5e 1 (Pack.args 7) 7 (Or.inl ⟨rfl, rfl⟩) rfl rfl).2.1⟩,
   ⟨(C3_Emplace natPayload w5e 1 (Pack.lvalue 0) 5 (Or.inl ⟨rfl, rfl⟩) rfl rfl).1,
    (C3_Emplace natPayload w5e 1 (Pack.lvalue 0) 5 (Or.inl ⟨rfl, rfl⟩) rfl rfl).2.1⟩⟩

/-- C4: from every container state `Reset()` returns and leaves the container Empty
(`HasValue() == false`); on a container that is already Empty it changes nothing, the
trace of payload operations included (no destructor runs); and a second `Reset()` changes
nothing the first one left. -/
theorem C4_Reset {T : Type} (w : World T) (this : Addr) :
    (WF w this →
      (Optional.Reset this w).1 = Res.ok () ∧ Empty (Optional.Reset this w).2 this ∧
      (Optional.HasValue this (Optional.Reset this w).2).1 = Res.ok false) ∧
    ((Optional.HasValue this w).1 = Res.ok false → Optional.Reset this w = (Res.ok (), w)) ∧
    Optional.Reset this (Optional.Reset this w).2 = Optional.Reset this w := by
  refine ⟨?_, ?_, ?_⟩
  · rintro (⟨h1, h3⟩ | ⟨v, h1, h2, h3⟩)
    · simp [Optional.Reset, Optional.HasValue, Empty, bind, pure, h1, h3]
    · simp [Optional.Reset, Optional.HasValue, Empty, bind, pure, h1, h2, h3]
  · intro h
    simp [Optional.HasValue, bind, pure] at h
    simp [Optional.Reset, Optional.HasValue, bind, pure, h]
  · cases h1 : (w.objs this).is_initialized_
    · simp [Optional.Reset, Optional.HasValue, bind, pure, h1]
    · cases h2 : (w.objs this).value_ with
      | none => simp [Optional.Reset, Optional.HasValue, bind, pure, h1, h2]
      | some a =>
        cases h3 : (w.objs a).data_ with
        | none => simp [Optional.Reset, Optional.HasValue, bind, pure, h1, h2, h3]
        | some v =>
          by_cases hne : this = a
          · subst hne
            simp [Optional.Reset, Optional.HasValue, bind, pure, h1, h2, h3]
          · simp [Optional.Reset, Optional.HasValue, bind, pure, h1, h2, h3, hne,
              Function.update_apply]

/-- Witness of C4: `Reset()` on the container holding 5 and on the default-constructed
one. -/
theorem C4_Reset_witness :
    ((Optional.Reset 0 w5e).1 = Res.ok () ∧ Empty (Optional.Reset 0 w5e).2 0 ∧
      (Optional.HasValue 0 (Optional.Reset 0 w5e).2).1 = Res.ok false) ∧
    Optional.Reset 1 w5e = (Res.ok (), w5e) :=
  ⟨(C4_Reset w5e 0).1 (Or.inr ⟨5, rfl, rfl, rfl⟩), (C4_Reset w5e 1).2.1 rfl⟩

/-- C5: copy-assignment `*this = rhs` between distinct containers, in each of the four
(this Engaged?, rhs Engaged?) cases: Empty from Engaged(x) gives Engaged(x); Engaged(a) from
Empty gives Empty; Engaged(a) from Engaged(b) gives Engaged(b); Empty from Empty gives
Empty (nothing changes at all); in every case the members of `rhs` are unchanged.  (The
payload type's copy constructor and copy assignment are value-preserving at the values
involved.) -/
theorem C5_copy_assign {T A : Type} (P : Payload T A) (w : World T) (this rhs : Addr)
    (hne : this ≠ rhs) :
    (∀ x, Empty w this → Engaged w rhs x → P.copyCtor x = some x →
      (Optional.assign_copy P this rhs w).1 = Res.ok () ∧
      Engaged (Optional.assign_copy P this rhs w).2 this x ∧
      (Optional.assign_copy P this rhs w).2.objs rhs = w.objs rhs) ∧
    (∀ a, Engaged w this a → Empty w rhs →
      (Optional.assign_copy P this rhs w).1 = Res.ok () ∧
      Empty (Optional.assign_copy P this rhs w).2 this ∧
      (Optional.assign_copy P this rhs w).2.objs rhs = w.objs rhs) ∧
    (∀ a b, Engaged w this a → Engaged w rhs b → P.copyAssign a b = (b, true) →
      (Optional.assign_copy P this rhs w).1 = Res.ok () ∧
      Engaged (Optional.assign_copy P this rhs w).2 this b ∧
      (Optional.assign_copy P this rhs w).2.objs rhs = w.objs rhs) ∧
    (Empty w this → Empty w rhs → Optional.assign_copy P this rhs w = (Res.ok (), w)) := by
  have hne2 : rhs ≠ this := fun h => hne h.symm
  refine ⟨?_, ?_, ?_, ?_⟩
  · rintro x ⟨h1, h3⟩ ⟨g1, g2, g3⟩ hc
    simp [Optional.assign_copy, Optional.star_const, Optional.HasValue, Engaged, bind, pure,
      h1, h3, g1, g2, g3, hc, hne, hne2]
  · rintro a ⟨h1, h2, h3⟩ ⟨g1, g3⟩
    simp [Optional.assign_copy, Optional.star_const, Optional.HasValue, Empty, bind, pure,
      h1, h2, h3, g1, g3, hne, hne2]
  · rintro a b ⟨h1, h2, h3⟩ ⟨g1, g2, g3⟩ hc
    simp [Optional.assign_copy, Optional.star_const, Optional.HasValue, Engaged, bind, pure,
      h1, h2, h3, g1, g2, g3, hc, hne, hne2]
  · rintro ⟨h1, h3⟩ ⟨g1, g3⟩
    simp [Optional.assign_copy, Optional.star_const, Optional.HasValue, bind, pure,
      h1, h3, g1, g3]

/-- Witness of C5, one instance of each case: Empty from Engaged(5), Engaged(5) from
Empty, Engaged(5) from Engaged(8), Empty from Empty. -/
theorem C5_copy_assign_witness :
    ((Optional.assign_copy natPayload 1 0 w5e).1 = Res.ok () ∧
      Engaged (Optional.assign_copy natPayload 1 0 w5e).2 1 5 ∧
      (Optional.assign_copy natPayload 1 0 w5e).2.objs 0 = w5e.objs 0) ∧
    ((Optional.assign_copy natPayload 0 1 w5e).1 = Res.ok () ∧
      Empty (Optional.assign_copy natPayload 0 1 w5e).2 0 ∧
      (Optional.assign_copy natPayload 0 1 w5e).2.objs 1 = w5e.objs 1) ∧
    ((Optional.assign_copy natPayload 0 1 w58).1 = Res.ok () ∧
      Engaged (Optional.assign_copy natPayload 0 1 w58).2 0 8 ∧
      (Optional.assign_copy natPayload 0 1 w58).2.objs 1 = w58.objs 1) ∧
    Optional.assign_copy natPayload 0 1 (World.fresh : World Nat)
      = (Res.ok (), World.fresh) :=
  ⟨(C5_copy_assign natPayload w5e 1 0 (by decide)).1 5 ⟨rfl, rfl⟩ ⟨rfl, rfl, rfl⟩ rfl,
   (C5_copy_assign natPayload w5e 0 1 (by decide)).2.1 5 ⟨rfl, rfl, rfl⟩ ⟨rfl, rfl⟩,
   (C5_copy_assign natPayload w58 0 1 (by decide)).2.2.1 5 8 ⟨rfl, rfl, rfl⟩ ⟨rfl, rfl, rfl⟩
     rfl,
   (C5_copy_assign natPayload World.fresh 0 1 (by decide)).2.2.2 ⟨rfl, rfl⟩ ⟨rfl, rfl⟩⟩

/-- C6: move-assignment `*this = std::move(rhs)` between distinct containers, in each of
the four cases: the engagement of `this` afterwards is that of `rhs` before the move, and
when `rhs` was Engaged(x) the payload of `this` afterwards is `x`, obtained by one move
construction when `this` was Empty and by one move assignment of the payload when `this`
was Engaged.  (The payload type's move constructor and move assignment are
value-preserving at the values involved.) -/
theorem C6_move_assign {T A : Type} (P : Payload T A) (w : World T) (this rhs : Addr)
    (hne : this ≠ rhs) :
    (∀ x, Empty w this → Engaged w rhs x → (P.moveCtor x).1 = some x →
      (Optional.assign_move P this rhs w).1 = Res.ok () ∧
      Engaged (Optional.assign_move P this rhs w).2 this x ∧
      (Optional.assign_move P this rhs w).2.trace
        = w.trace ++ [⟨Op.moveCtor, some this, true⟩]) ∧
    (∀ a, Engaged w this a → Empty w rhs →
      (Optional.assign_move P this rhs w).1 = Res.ok () ∧
      Empty (Optional.assign_move P this rhs w).2 this) ∧
    (∀ a b, Engaged w this a → Engaged w rhs b →
      (P.moveAssign a b).1.1 = b → (P.moveAssign a b).2 = true →
      (Optional.assign_move P this rhs w).1 = Res.ok () ∧
      Engaged (Optional.assign_move P this rhs w).2 this b ∧
      (Optional.assign_move P this rhs w).2.trace
        = w.trace ++ [⟨Op.moveAssign, some this, true⟩]) ∧
    (Empty w this → Empty w rhs → Optional.assign_move P this rhs w = (Res.ok (), w)) := by
  have hne2 : rhs ≠ this := fun h => hne h.symm
  refine ⟨?_, ?_, ?_, ?_⟩
  · rintro x ⟨h1, h3⟩ ⟨g1, g2, g3⟩ hc
    simp [Optional.assign_move, Optional.star, Optional.HasValue, Engaged, bind, pure,
      h1, h3, g1, g2, g3, hc, hne, hne2]
  · rintro a ⟨h1, h2, h3⟩ ⟨g1, g3⟩
    simp [Optional.assign_move, Optional.star, Optional.HasValue, Empty, bind, pure,
      h1, h2, h3, g1, g3, hne, hne2]
  · rintro a b ⟨h1, h2, h3⟩ ⟨g1, g2, g3⟩ hc hr
    simp [Optional.assign_move, Optional.star, Optional.HasValue, Engaged, bind, pure,
      h1, h2, h3, g1, g2, g3, hc, hr, hne, hne2]
  · rintro ⟨h1, h3⟩ ⟨g1, g3⟩
    simp [Optional.assign_move, Optional.star, Optional.HasValue, bind, pure,
      h1, h3, g1, g3]

/-- Witness of C6, one instance of each case: Empty from Engaged(5), Engaged(5) from
Empty, Engaged(5) from Engaged(8), Empty from Empty. -/
theorem C6_move_assign_witness :
    ((Optional.assign_move natPayload 1 0 w5e).1 = Res.ok () ∧
      Engaged (Optional.assign_move natPayload 1 0 w5e).2 1 5 ∧
      (Optional.assign_move natPayload 1 0 w5e).2.trace
        = w5e.trace ++ [⟨Op.moveCtor, some 1, true⟩]) ∧
    ((Optional.assign_move natPayload 0 1 w5e).1 = Res.ok () ∧
      Empty (Optional.assign_move natPayload 0 1 w5e).2 0) ∧
    ((Optional.assign_move natPayload 0 1 w58).1 = Res.ok () ∧
      Engaged (Optional.assign_move natPayload 0 1 w58).2 0 8 ∧
      (Optional.assign_move natPayload 0 1 w58).2.trace
        = w58.trace ++ [⟨Op.moveAssign, some 0, true⟩]) ∧
    Optional.assign_move natPayload 0 1 (World.fresh : World Nat)
      = (Res.ok (), World.fresh) :=
  ⟨(C6_move_assign natPayload w5e 1 0 (by decide)).1 5 ⟨rfl, rfl⟩ ⟨rfl, rfl, rfl⟩ rfl,
   (C6_move_assign natPayload w5e 0 1 (by decide)).2.1 5 ⟨rfl, rfl, rfl⟩ ⟨rfl, rfl⟩,
   (C6_move_assign natPayload w58 0 1 (by decide)).2.2.1 5 8 ⟨rfl, rfl, rfl⟩ ⟨rfl, rfl, rfl⟩
     rfl rfl,
   (C6_move_assign natPayload World.fresh 0 1 (by decide)).2.2.2 ⟨rfl, rfl⟩ ⟨rfl, rfl⟩⟩

/-- C7: self-assignment.  In every state of the container, Engaged with any payload or
Empty, copy-assigning or move-assigning it to itself returns and changes nothing: the
engagement flag, the payload, and the trace of payload operations (no constructor,
destructor or assignment operator of the payload runs) are what they were. -/
theorem C7_self_assign {T A : Type} (P : Payload T A) (w : World T) (this : Addr) :
    Optional.assign_copy P this this w = (Res.ok (), w) ∧
    Optional.assign_move P this this w = (Res.ok (), w) := by
  constructor <;> cases h : (w.objs this).is_initialized_ <;>
    simp [Optional.assign_copy, Optional.assign_move, Optional.HasValue, bind, pure, h]

/-- C9: copy construction `Optional(const Optional& other)` of a new container mirrors the
source: the new container's `HasValue()` is the source's, when the source is Engaged(x)
the new payload is `x` (the payload type's copy constructor being value-preserving at
`x`), the members of the source are unchanged, and when the source is Empty no payload
operation runs at all. -/
theorem C9_copy_construct {T A : Type} (P : Payload T A) (w : World T) (this other : Addr)
    (hne : this ≠ other) :
    (∀ x, Engaged w other x → P.copyCtor x = some x →
      (Optional.ctor_copy P this other w).1 = Res.ok () ∧
      Engaged (Optional.ctor_copy P this other w).2 this x ∧
      (Optional.HasValue this (Optional.ctor_copy P this other w).2).1
        = (Optional.HasValue other w).1 ∧
      (Optional.ctor_copy P this other w).2.objs other = w.objs other) ∧
    (Empty w other →
      (Optional.ctor_copy P this other w).1 = Res.ok () ∧
      Empty (Optional.ctor_copy P this other w).2 this ∧
      (Optional.HasValue this (Optional.ctor_copy P this other w).2).1
        = (Optional.HasValue other w).1 ∧
      (Optional.ctor_copy P this other w).2.objs other = w.objs other ∧
      (Optional.ctor_copy P this other w).2.trace = w.trace) := by
  have hne2 : other ≠ this := fun h => hne h.symm
  refine ⟨?_, ?_⟩
  · rintro x ⟨g1, g2, g3⟩ hc
    simp [Optional.ctor_copy, Optional.star_const, Optional.HasValue, Engaged, bind, pure,
      g1, g2, g3, hc, hne, hne2]
  · rintro ⟨g1, g3⟩
    simp [Optional.ctor_copy, Optional.star_const, Optional.HasValue, Empty, bind, pure,
      g1, g3, hne, hne2]

/-- Witness of C9: a copy at address 2 of the container holding 5, and of the
default-constructed one. -/
theorem C9_copy_construct_witness :
    ((Optional.ctor_copy natPayload 2 0 w5e).1 = Res.ok () ∧
      Engaged (Optional.ctor_copy natPayload 2 0 w5e).2 2 5 ∧
      (Optional.HasValue 2 (Optional.ctor_copy natPayload 2 0 w5e).2).1
        = (Optional.HasValue 0 w5e).1 ∧
      (Optional.ctor_copy natPayload 2 0 w5e).2.objs 0 = w5e.objs 0) ∧
    ((Optional.ctor_copy natPayload 2 1 w5e).1 = Res.ok () ∧
      Empty (Optional.ctor_copy natPayload 2 1 w5e).2 2 ∧
      (Optional.HasValue 2 (Optional.ctor_copy natPayload 2 1 w5e).2).1
        = (Optional.HasValue 1 w5e).1 ∧
      (Optional.ctor_copy natPayload 2 1 w5e).2.objs 1 = w5e.objs 1 ∧
      (Optional.ctor_copy natPayload 2 1 w5e).2.trace = w5e.trace) :=
  ⟨(C9_copy_construct natPayload w5e 2 0 (by decide)).1 5 ⟨rfl, rfl, rfl⟩ rfl,
   (C9_copy_construct natPayload w5e 2 1 (by decide)).2 ⟨rfl, rfl⟩⟩

/-- C10: move construction `Optional(Optional&& other)` of a new container mirrors the
source's engagement before the move: the new container's `HasValue()` is what the source's
was, when the source was Engaged(x) the new payload is `x` (the payload type's move
constructor being value-preserving at `x`), and when the source is Empty no payload
operation runs and the new container is Empty. -/
theorem C10_move_construct {T A : Type} (P : Payload T A) (w : World T) (this other : Addr)
    (hne : this ≠ other) :
    (∀ x, Engaged w other x → (P.moveCtor x).1 = some x →
      (Optional.ctor_move P this other w).1 = Res.ok () ∧
      Engaged (Optional.ctor_move P this other w).2 this x ∧
      (Optional.HasValue this (Optional.ctor_move P this other w).2).1
        = (Optional.HasValue other w).1) ∧
    (Empty w other →
      (Optional.ctor_move P this other w).1 = Res.ok () ∧
      Empty (Optional.ctor_move P this other w).2 this ∧
      (Optional.HasValue this (Optional.ctor_move P this other w).2).1
        = (Optional.HasValue other w).1 ∧
      (Optional.ctor_move P this other w).2.trace = w.trace) := by
  have hne2 : other ≠ this := fun h => hne h.symm
  refine ⟨?_, ?_⟩
  · rintro x ⟨g1, g2, g3⟩ hc
    simp [Optional.ctor_move, Optional.star, Optional.HasValue, Engaged, bind, pure,
      g1, g2, g3, hc, hne, hne2]
  · rintro ⟨g1, g3⟩
    simp [Optional.ctor_move, Optional.star, Optional.HasValue, Empty, bind, pure,
      g1, g3, hne, hne2]

/-- Witness of C10: the container holding 5, and the default-constructed one, moved into
a new container at address 2. -/
theorem C10_move_construct_witness :
    ((Optional.ctor_move natPayload 2 0 w5e).1 = Res.ok () ∧
      Engaged (Optional.ctor_move natPayload 2 0 w5e).2 2 5 ∧
      (Optional.HasValue 2 (Optional.ctor_move natPayload 2 0 w5e).2).1
        = (Optional.HasValue 0 w5e).1) ∧
    ((Optional.ctor_move natPayload 2 1 w5e).1 = Res.ok () ∧
      Empty (Optional.ctor_move natPayload 2 1 w5e).2 2 ∧
      (Optional.HasValue 2 (Optional.ctor_move natPayload 2 1 w5e).2).1
        = (Optional.HasValue 1 w5e).1 ∧
      (Optional.ctor_move natPayload 2 1 w5e).2.trace = w5e.trace) :=
  ⟨(C10_move_construct natPayload w5e 2 0 (by decide)).1 5 ⟨rfl, rfl, rfl⟩ rfl,
   (C10_move_construct natPayload w5e 2 1 (by decide)).2 ⟨rfl, rfl⟩⟩

/-- The inductive invariant says the container is in one of the two states of the
specification. -/
theorem Inv_iff_WF {T : Type} (w : World T) (a : Addr) : Inv w a ↔ WF w a := by
  unfold Inv FlagIffLive WF Empty Engaged
  cases h1 : (w.objs a).is_initialized_ <;> cases h3 : (w.objs a).data_ <;> simp

/-- Copy assignment between containers: it returns when the payload type does not throw, and when it returns it keeps the invariant and the balance of every container. -/
theorem step_assign_copy {T A : Type} (P : Payload T A) (w : World T) (this rhs : Addr)
    (hI : ∀ a, Inv w a) :
    (P.NoThrow → (Optional.assign_copy P this rhs w).1 = Res.ok ()) ∧
    ((Optional.assign_copy P this rhs w).1 = Res.ok () →
      ∀ a, Inv (Optional.assign_copy P this rhs w).2 a ∧
        (Balanced w a → Balanced (Optional.assign_copy P this rhs w).2 a)) := by
  by_cases e : this = rhs
  · subst e
    cases h1 : (w.objs this).is_initialized_ <;>
      simp [Optional.assign_copy, Optional.HasValue, bind, pure, h1] <;> exact hI
  · have e2 : rhs ≠ this := fun h => e h.symm
    rcases (Inv_iff_WF w this).1 (hI this) with ⟨h1, h3⟩ | ⟨x, h1, h2, h3⟩ <;>
    rcases (Inv_iff_WF w rhs).1 (hI rhs) with ⟨g1, g3⟩ | ⟨y, g1, g2, g3⟩
    · simp [Optional.assign_copy, Optional.star_const, Optional.HasValue, bind, pure, h1, h3, g1, g3]
      exact hI
    · refine ⟨fun hP => ?_, ?_⟩
      · have := hP.copyCtor y
        cases h5 : P.copyCtor y <;>
        simp_all [Optional.assign_copy, Optional.star_const, Optional.HasValue, bind, pure]
      cases h5 : P.copyCtor y <;>
        simp [Optional.assign_copy, Optional.star_const, Optional.HasValue, bind, pure,
          h1, h3, g1, g2, g3, h5, e, e2]
      intro a
      have ha := hI a
      by_cases ea : a = this
      · subst ea
        simp [Inv, FlagIffLive, Balanced, constructed, destroyed, live, List.countP_append,
                Event.constructsAt, Event.destroysAt, *]
      · by_cases eb : a = rhs
        · subst eb
          simp [Inv, FlagIffLive, Balanced, constructed, destroyed, live, List.countP_append,
                Event.constructsAt, Event.destroysAt, *]
        · have ea2 : ¬ this = a := fun h => ea h.symm
          simpa [Inv, FlagIffLive, Balanced, constructed, destroyed, live, List.countP_append,
                Event.constructsAt, Event.destroysAt, ea, eb, ea2] using ha
    · refine ⟨fun hP => ?_, ?_⟩
      · simp_all [Optional.assign_copy, Optional.star_const, Optional.HasValue, bind, pure]
      simp [Optional.assign_copy, Optional.star_const, Optional.HasValue, bind, pure,
          h1, h2, h3, g1, g3, e, e2]
      intro a
      have ha := hI a
      by_cases ea : a = this
      · subst ea
        simp [Inv, FlagIffLive, Balanced, constructed, destroyed, live, List.countP_append,
                Event.constructsAt, Event.destroysAt, *]
      · by_cases eb : a = rhs
        · subst eb
          simp [Inv, FlagIffLive, Balanced, constructed, destroyed, live, List.countP_append,
                Event.constructsAt, Event.destroysAt, *]
        · have ea2 : ¬ this = a := fun h => ea h.symm
          simpa [Inv, FlagIffLive, Balanced, constructed, destroyed, live, List.countP_append,
                Event.constructsAt, Event.destroysAt, ea, eb, ea2] using ha
    · refine ⟨fun hP => ?_, ?_⟩
      · have := hP.copyAssign x y
        simp_all [Optional.assign_copy, Optional.star_const, Optional.HasValue, bind, pure]
      cases h5 : (P.copyAssign x y).2 <;>
        simp [Optional.assign_copy, Optional.star_const, Optional.HasValue, bind, pure,
          h1, h2, h3, g1, g2, g3, h5, e, e2]
      intro a
      have ha := hI a
      by_cases ea : a = this
      · subst ea
        simp [Inv, FlagIffLive, Balanced, constructed, destroyed, live, List.countP_append,
                Event.constructsAt, Event.destroysAt, *]
      · by_cases eb : a = rhs
        · subst eb
          simp [Inv, FlagIffLive, Balanced, constructed, destroyed, live, List.countP_append,
                Event.constructsAt, Event.destroysAt, *]
        · have ea2 : ¬ this = a := fun h => ea h.symm
          simpa [Inv, FlagIffLive, Balanced, constructed, destroyed, live, List.countP_append,
                Event.constructsAt, Event.destroysAt, ea, eb, ea2] using ha

/-- Move assignment between containers: it returns when the payload type does not throw, and when it returns it keeps the invariant and the balance of every container. -/
theorem step_assign_move {T A : Type} (P : Payload T A) (w : World T) (this rhs : Addr)
    (hI : ∀ a, Inv w a) :
    (P.NoThrow → (Optional.assign_move P this rhs w).1 = Res.ok ()) ∧
    ((Optional.assign_move P this rhs w).1 = Res.ok () →
      ∀ a, Inv (Optional.assign_move P this rhs w).2 a ∧
        (Balanced w a → Balanced (Optional.assign_move P this rhs w).2 a)) := by
  by_cases e : this = rhs
  · subst e
    cases h1 : (w.objs this).is_initialized_ <;>
      simp [Optional.assign_move, Optional.HasValue, bind, pure, h1] <;> exact hI
  · have e2 : rhs ≠ this := fun h => e h.symm
    rcases (Inv_iff_WF w this).1 (hI this) with ⟨h1, h3⟩ | ⟨x, h1, h2, h3⟩ <;>
    rcases (Inv_iff_WF w rhs).1 (hI rhs) with ⟨g1, g3⟩ | ⟨y, g1, g2, g3⟩
    · simp [Optional.assign_move, Optional.star, Optional.HasValue, bind, pure, h1, h3, g1, g3]
      exact hI
    · refine ⟨fun hP => ?_, ?_⟩
      · have := hP.moveCtor y
        cases h5 : (P.moveCtor y).1 <;>
        simp_all [Optional.assign_move, Optional.star, Optional.HasValue, bind, pure]
      cases h5 : (P.moveCtor y).1 <;>
        simp [Optional.assign_move, Optional.star, Optional.HasValue, bind, pure,
          h1, h3, g1, g2, g3, h5, e, e2]
      intro a
      have ha := hI a
      by_cases ea : a = this
      · subst ea
        simp [Inv, FlagIffLive, Balanced, constructed, destroyed, live, List.countP_append,
                Event.constructsAt, Event.destroysAt, *]
      · by_cases eb : a = rhs
        · subst eb
          simp [Inv, FlagIffLive, Balanced, constructed, destroyed, live, List.countP_append,
                Event.constructsAt, Event.destroysAt, *]
        · have ea2 : ¬ this = a := fun h => ea h.symm
          simpa [Inv, FlagIffLive, Balanced, constructed, destroyed, live, List.countP_append,
                Event.constructsAt, Event.destroysAt, ea, eb, ea2] using ha
    · refine ⟨fun hP => ?_, ?_⟩
      · simp_all [Optional.assign_move, Optional.star, Optional.HasValue, bind, pure]
      simp [Optional.assign_move, Optional.star, Optional.HasValue, bind, pure,
          h1, h2, h3, g1, g3, e, e2]
      intro a
      have ha := hI a
      by_cases ea : a = this
      · subst ea
        simp [Inv, FlagIffLive, Balanced, constructed, destroyed, live, List.countP_append,
                Event.constructsAt, Event.destroysAt, *]
      · by_cases eb : a = rhs
        · subst eb
          simp [Inv, FlagIffLive, Balanced, constructed, destroyed, live, List.countP_append,
                Event.constructsAt, Event.destroysAt, *]
        · have ea2 : ¬ this = a := fun h => ea h.symm
          simpa [Inv, FlagIffLive, Balanced, constructed, destroyed, live, List.countP_append,
                Event.constructsAt, Event.destroysAt, ea, eb, ea2] using ha
    · refine ⟨fun hP => ?_, ?_⟩
      · have := hP.moveAssign x y
        simp_all [Optional.assign_move, Optional.star, Optional.HasValue, bind, pure]
      cases h5 : (P.moveAssign x y).2 <;>
        simp [Optional.assign_move, Optional.star, Optional.HasValue, bind, pure,
          h1, h2, h3, g1, g2, g3, h5, e, e2]
      intro a
      have ha := hI a
      by_cases ea : a = this
      · subst ea
        simp [Inv, FlagIffLive, Balanced, constructed, destroyed, live, List.countP_append,
                Event.constructsAt, Event.destroysAt, *]
      · by_cases eb : a = rhs
        · subst eb
          simp [Inv, FlagIffLive, Balanced, constructed, destroyed, live, List.countP_append,
                Event.constructsAt, Event.destroysAt, *]
        · have ea2 : ¬ this = a := fun h => ea h.symm
          simpa [Inv, FlagIffLive, Balanced, constructed, destroyed, live, List.countP_append,
                Event.constructsAt, Event.destroysAt, ea, eb, ea2] using ha

/-- Assignment from a `const T&`: it does not throw when the payload type does not, and when
it returns it keeps the invariant and the balance of every container. -/
theorem step_assign_value {T A : Type} (P : Payload T A) (w : World T) (this : Addr)
    (arg : Arg T) (hI : ∀ a, Inv w a) :
    (P.NoThrow → ∀ e, (Optional.assign_value P this arg w).1 ≠ Res.thrown e) ∧
    ((Optional.assign_value P this arg w).1 = Res.ok () →
      ∀ a, Inv (Optional.assign_value P this arg w).2 a ∧
        (Balanced w a → Balanced (Optional.assign_value P this arg w).2 a)) := by
  cases arg with
  | ext v =>
    rcases (Inv_iff_WF w this).1 (hI this) with ⟨h1, h3⟩ | ⟨x, h1, h2, h3⟩
    · refine ⟨fun hP e => ?_, ?_⟩
      · have h6 := hP.copyCtor v
        cases h5 : P.copyCtor v <;>
          simp_all [Optional.assign_value, Optional.HasValue, bind, pure]
      cases h5 : P.copyCtor v <;>
        simp [Optional.assign_value, Optional.HasValue, bind, pure,
          h1, h3, h5]
      intro a
      have ha := hI a
      by_cases ea : a = this
      · subst ea
        simp [Inv, FlagIffLive, Balanced, constructed, destroyed, live, List.countP_append,
            Event.constructsAt, Event.destroysAt, *]
      · have ea2 : ¬ this = a := fun h => ea h.symm
        simpa [Inv, FlagIffLive, Balanced, constructed, destroyed, live, List.countP_append,
            Event.constructsAt, Event.destroysAt, ea, ea2] using ha
    · refine ⟨fun hP e => ?_, ?_⟩
      · have h6 := hP.copyAssign x v
        cases h5 : (P.copyAssign x v).2 <;>
          simp_all [Optional.assign_value, Optional.HasValue, bind, pure]
      cases h5 : (P.copyAssign x v).2 <;>
        simp [Optional.assign_value, Optional.HasValue, bind, pure,
          h1, h2, h3, h5]
      intro a
      have ha := hI a
      by_cases ea : a = this
      · subst ea
        simp [Inv, FlagIffLive, Balanced, constructed, destroyed, live, List.countP_append,
            Event.constructsAt, Event.destroysAt, *]
      · have ea2 : ¬ this = a := fun h => ea h.symm
        simpa [Inv, FlagIffLive, Balanced, constructed, destroyed, live, List.countP_append,
            Event.constructsAt, Event.destroysAt, ea, ea2] using ha
  | payload b =>
    by_cases hb : b = this
    · subst hb
      rcases (Inv_iff_WF w b).1 (hI b) with ⟨h1, h3⟩ | ⟨x, h1, h2, h3⟩
      · simp [Optional.assign_value, Optional.HasValue, bind, pure,
          h1, h3]
      · refine ⟨fun hP e => ?_, ?_⟩
        · have h6 := hP.copyAssign x x
          cases h5 : (P.copyAssign x x).2 <;>
            simp_all [Optional.assign_value, Optional.HasValue, bind, pure]
        cases h5 : (P.copyAssign x x).2 <;>
          simp [Optional.assign_value, Optional.HasValue, bind, pure,
            h1, h2, h3, h5]
        intro a
        have ha := hI a
        by_cases ea : a = b
        · subst ea
          simp [Inv, FlagIffLive, Balanced, constructed, destroyed, live, List.countP_append,
              Event.constructsAt, Event.destroysAt, *]
        · have ea2 : ¬ b = a := fun h => ea h.symm
          simpa [Inv, FlagIffLive, Balanced, constructed, destroyed, live, List.countP_append,
              Event.constructsAt, Event.destroysAt, ea, ea2] using ha
    · have hb2 : this ≠ b := fun e => hb e.symm
      rcases (Inv_iff_WF w this).1 (hI this) with ⟨h1, h3⟩ | ⟨x, h1, h2, h3⟩ <;>
      rcases (Inv_iff_WF w b).1 (hI b) with ⟨g1, g3⟩ | ⟨y, g1, g2, g3⟩
      · simp [Optional.assign_value, Optional.HasValue, bind, pure,
          h1, h3, g1, g3, hb, hb2]
      · refine ⟨fun hP e => ?_, ?_⟩
        · have h6 := hP.copyCtor y
          cases h5 : P.copyCtor y <;>
            simp_all [Optional.assign_value, Optional.HasValue, bind, pure]
        cases h5 : P.copyCtor y <;>
          simp [Optional.assign_value, Optional.HasValue, bind, pure,
            h1, h3, g1, g2, g3, hb, hb2, h5]
        intro a
        have ha := hI a
        by_cases ea : a = this
        · subst ea
          simp [Inv, FlagIffLive, Balanced, constructed, destroyed, live, List.countP_append,
              Event.constructsAt, Event.destroysAt, *]
        · by_cases eb : a = b
          · subst eb
            simp [Inv, FlagIffLive, Balanced, constructed, destroyed, live, List.countP_append,
              Event.constructsAt, Event.destroysAt, *]
          · have ea2 : ¬ this = a := fun h => ea h.symm
            simpa [Inv, FlagIffLive, Balanced, constructed, destroyed, live, List.countP_append,
              Event.constructsAt, Event.destroysAt, ea, eb, ea2] using ha
      · simp [Optional.assign_value, Optional.HasValue, bind, pure,
          h1, h2, h3, g1, g3, hb, hb2]
      · refine ⟨fun hP e => ?_, ?_⟩
        · have h6 := hP.copyAssign x y
          cases h5 : (P.copyAssign x y).2 <;>
            simp_all [Optional.assign_value, Optional.HasValue, bind, pure]
        cases h5 : (P.copyAssign x y).2 <;>
          simp [Optional.assign_value, Optional.HasValue, bind, pure,
            h1, h2, h3, g1, g2, g3, hb, hb2, h5]
        intro a
        have ha := hI a
        by_cases ea : a = this
        · subst ea
          simp [Inv, FlagIffLive, Balanced, constructed, destroyed, live, List.countP_append,
              Event.constructsAt, Event.destroysAt, *]
        · by_cases eb : a = b
          · subst eb
            simp [Inv, FlagIffLive, Balanced, constructed, destroyed, live, List.countP_append,
              Event.constructsAt, Event.destroysAt, *]
          · have ea2 : ¬ this = a := fun h => ea h.symm
            simpa [Inv, FlagIffLive, Balanced, constructed, destroyed, live, List.countP_append,
              Event.constructsAt, Event.destroysAt, ea, eb, ea2] using ha

/-- Assignment from a `T&&`: it does not throw when the payload type does not, and when it
returns it keeps the invariant and the balance of every container. -/
theorem step_assign_rvalue {T A : Type} (P : Payload T A) (w : World T) (this : Addr)
    (arg : Arg T) (hI : ∀ a, Inv w a) :
    (P.NoThrow → ∀ e, (Optional.assign_rvalue P this arg w).1 ≠ Res.thrown e) ∧
    ((Optional.assign_rvalue P this arg w).1 = Res.ok () →
      ∀ a, Inv (Optional.assign_rvalue P this arg w).2 a ∧
        (Balanced w a → Balanced (Optional.assign_rvalue P this arg w).2 a)) := by
  cases arg with
  | ext v =>
    rcases (Inv_iff_WF w this).1 (hI this) with ⟨h1, h3⟩ | ⟨x, h1, h2, h3⟩
    · refine ⟨fun hP e => ?_, ?_⟩
      · have h6 := hP.moveCtor v
        cases h5 : (P.moveCtor v).1 <;>
          simp_all [Optional.assign_rvalue, Optional.HasValue, bind, pure]
      cases h5 : (P.moveCtor v).1 <;>
        simp [Optional.assign_rvalue, Optional.HasValue, bind, pure,
          h1, h3, h5]
      intro a
      have ha := hI a
      by_cases ea : a = this
      · subst ea
        simp [Inv, FlagIffLive, Balanced, constructed, destroyed, live, List.countP_append,
            Event.constructsAt, Event.destroysAt, *]
      · have ea2 : ¬ this = a := fun h => ea h.symm
        simpa [Inv, FlagIffLive, Balanced, constructed, destroyed, live, List.countP_append,
            Event.constructsAt, Event.destroysAt, ea, ea2] using ha
    · refine ⟨fun hP e => ?_, ?_⟩
      · have h6 := hP.moveAssign x v
        cases h5 : (P.moveAssign x v).2 <;>
          simp_all [Optional.assign_rvalue, Optional.HasValue, bind, pure]
      cases h5 : (P.moveAssign x v).2 <;>
        simp [Optional.assign_rvalue, Optional.HasValue, bind, pure,
          h1, h2, h3, h5]
      intro a
      have ha := hI a
      by_cases ea : a = this
      · subst ea
        simp [Inv, FlagIffLive, Balanced, constructed, destroyed, live, List.countP_append,
            Event.constructsAt, Event.destroysAt, *]
      · have ea2 : ¬ this = a := fun h => ea h.symm
        simpa [Inv, FlagIffLive, Balanced, constructed, destroyed, live, List.countP_append,
            Event.constructsAt, Event.destroysAt, ea, ea2] using ha
  | payload b =>
    by_cases hb : b = this
    · subst hb
      rcases (Inv_iff_WF w b).1 (hI b) with ⟨h1, h3⟩ | ⟨x, h1, h2, h3⟩
      · simp [Optional.assign_rvalue, Optional.HasValue, bind, pure,
          h1, h3]
      · refine ⟨fun hP e => ?_, ?_⟩
        · have h6 := hP.moveAssign x x
          cases h5 : (P.moveAssign x x).2 <;>
            simp_all [Optional.assign_rvalue, Optional.HasValue, bind, pure]
        cases h5 : (P.moveAssign x x).2 <;>
          simp [Optional.assign_rvalue, Optional.HasValue, bind, pure,
            h1, h2, h3, h5]
        intro a
        have ha := hI a
        by_cases ea : a = b
        · subst ea
          simp [Inv, FlagIffLive, Balanced, constructed, destroyed, live, List.countP_append,
              Event.constructsAt, Event.destroysAt, *]
        · have ea2 : ¬ b = a := fun h => ea h.symm
          simpa [Inv, FlagIffLive, Balanced, constructed, destroyed, live, List.countP_append,
              Event.constructsAt, Event.destroysAt, ea, ea2] using ha
    · have hb2 : this ≠ b := fun e => hb e.symm
      rcases (Inv_iff_WF w this).1 (hI this) with ⟨h1, h3⟩ | ⟨x, h1, h2, h3⟩ <;>
      rcases (Inv_iff_WF w b).1 (hI b) with ⟨g1, g3⟩ | ⟨y, g1, g2, g3⟩
      · simp [Optional.assign_rvalue, Optional.HasValue, bind, pure,
          h1, h3, g1, g3, hb, hb2]
      · refine ⟨fun hP e => ?_, ?_⟩
        · have h6 := hP.moveCtor y
          cases h5 : (P.moveCtor y).1 <;>
            simp_all [Optional.assign_rvalue, Optional.HasValue, bind, pure]
        cases h5 : (P.moveCtor y).1 <;>
          simp [Optional.assign_rvalue, Optional.HasValue, bind, pure,
            h1, h3, g1, g2, g3, hb, hb2, h5]
        intro a
        have ha := hI a
        by_cases ea : a = this
        · subst ea
          simp [Inv, FlagIffLive, Balanced, constructed, destroyed, live, List.countP_append,
              Event.constructsAt, Event.destroysAt, *]
        · by_cases eb : a = b
          · subst eb
            simp [Inv, FlagIffLive, Balanced, constructed, destroyed, live, List.countP_append,
              Event.constructsAt, Event.destroysAt, *]
          · have ea2 : ¬ this = a := fun h => ea h.symm
            simpa [Inv, FlagIffLive, Balanced, constructed, destroyed, live, List.countP_append,
              Event.constructsAt, Event.destroysAt, ea, eb, ea2] using ha
      · simp [Optional.assign_rvalue, Optional.HasValue, bind, pure,
          h1, h2, h3, g1, g3, hb, hb2]
      · refine ⟨fun hP e => ?_, ?_⟩
        · have h6 := hP.moveAssign x y
          cases h5 : (P.moveAssign x y).2 <;>
            simp_all [Optional.assign_rvalue, Optional.HasValue, bind, pure]
        cases h5 : (P.moveAssign x y).2 <;>
          simp [Optional.assign_rvalue, Optional.HasValue, bind, pure,
            h1, h2, h3, g1, g2, g3, hb, hb2, h5]
        intro a
        have ha := hI a
        by_cases ea : a = this
        · subst ea
          simp [Inv, FlagIffLive, Balanced, constructed, destroyed, live, List.countP_append,
              Event.constructsAt, Event.destroysAt, *]
        · by_cases eb : a = b
          · subst eb
            simp [Inv, FlagIffLive, Balanced, constructed, destroyed, live, List.countP_append,
              Event.constructsAt, Event.destroysAt, *]
          · have ea2 : ¬ this = a := fun h => ea h.symm
            simpa [Inv, FlagIffLive, Balanced, constructed, destroyed, live, List.countP_append,
              Event.constructsAt, Event.destroysAt, ea, eb, ea2] using ha

/-- `Reset()` returns, and keeps the invariant and the balance of every container. -/
theorem step_Reset {T : Type} (w : World T) (this : Addr) (hI : ∀ a, Inv w a) :
    (Optional.Reset this w).1 = Res.ok () ∧
    ∀ a, Inv (Optional.Reset this w).2 a ∧
      (Balanced w a → Balanced (Optional.Reset this w).2 a) := by
  rcases (Inv_iff_WF w this).1 (hI this) with ⟨h1, h3⟩ | ⟨x, h1, h2, h3⟩
  · simp [Optional.Reset, Optional.HasValue, bind, pure, h1]
    exact hI
  · simp [Optional.Reset, Optional.HasValue, bind, pure, h1, h2, h3]
    intro a
    have ha := hI a
    by_cases ea : a = this
    · subst ea
      simp [Inv, FlagIffLive, Balanced, constructed, destroyed, live, List.countP_append,
              Event.constructsAt, Event.destroysAt, *]
    · have ea2 : ¬ this = a := fun h => ea h.symm
      simpa [Inv, FlagIffLive, Balanced, constructed, destroyed, live, List.countP_append,
              Event.constructsAt, Event.destroysAt, ea, ea2] using ha

/-- `Emplace(args...)` does not throw when the payload type does not, and when it returns
it keeps the invariant and the balance of every container. -/
theorem step_Emplace {T A : Type} (P : Payload T A) (w : World T) (this : Addr)
    (args : Pack T A) (hI : ∀ a, Inv w a) :
    (P.NoThrow → ∀ e, (Optional.Emplace P this args w).1 ≠ Res.thrown e) ∧
    ((Optional.Emplace P this args w).1 = Res.ok () →
      ∀ a, Inv (Optional.Emplace P this args w).2 a ∧
        (Balanced w a → Balanced (Optional.Emplace P this args w).2 a)) := by
  cases args with
  | args v =>
    rcases (Inv_iff_WF w this).1 (hI this) with ⟨h1, h3⟩ | ⟨x, h1, h2, h3⟩
    · refine ⟨fun hP e => ?_, ?_⟩
      · have h6 := hP.construct v
        cases h5 : P.construct v <;>
          simp_all [Optional.Emplace, Optional.Reset, Optional.HasValue, bind, pure]
      cases h5 : P.construct v <;>
        simp [Optional.Emplace, Optional.Reset, Optional.HasValue, bind, pure,
          h1, h3, h5]
      intro a
      have ha := hI a
      by_cases ea : a = this
      · subst ea
        simp [Inv, FlagIffLive, Balanced, constructed, destroyed, live, List.countP_append,
            Event.constructsAt, Event.destroysAt, *]
      · have ea2 : ¬ this = a := fun h => ea h.symm
        simpa [Inv, FlagIffLive, Balanced, constructed, destroyed, live, List.countP_append,
            Event.constructsAt, Event.destroysAt, ea, ea2] using ha
    · refine ⟨fun hP e => ?_, ?_⟩
      · have h6 := hP.construct v
        cases h5 : P.construct v <;>
          simp_all [Optional.Emplace, Optional.Reset, Optional.HasValue, bind, pure]
      cases h5 : P.construct v <;>
        simp [Optional.Emplace, Optional.Reset, Optional.HasValue, bind, pure,
          h1, h2, h3, h5]
      intro a
      have ha := hI a
      by_cases ea : a = this
      · subst ea
        simp [Inv, FlagIffLive, Balanced, constructed, destroyed, live, List.countP_append,
            Event.constructsAt, Event.destroysAt, *]
      · have ea2 : ¬ this = a := fun h => ea h.symm
        simpa [Inv, FlagIffLive, Balanced, constructed, destroyed, live, List.countP_append,
            Event.constructsAt, Event.destroysAt, ea, ea2] using ha
  | lvalue b =>
    by_cases hb : b = this
    · subst hb
      rcases (Inv_iff_WF w b).1 (hI b) with ⟨h1, h3⟩ | ⟨x, h1, h2, h3⟩
      · simp [Optional.Emplace, Optional.Reset, Optional.HasValue, bind, pure,
          h1, h3]
      · simp [Optional.Emplace, Optional.Reset, Optional.HasValue, bind, pure,
          h1, h2, h3]
    · have hb2 : this ≠ b := fun e => hb e.symm
      rcases (Inv_iff_WF w this).1 (hI this) with ⟨h1, h3⟩ | ⟨x, h1, h2, h3⟩ <;>
      rcases (Inv_iff_WF w b).1 (hI b) with ⟨g1, g3⟩ | ⟨y, g1, g2, g3⟩
      · simp [Optional.Emplace, Optional.Reset, Optional.HasValue, bind, pure,
          h1, h3, g1, g3, hb, hb2]
      · refine ⟨fun hP e => ?_, ?_⟩
        · have h6 := hP.copyCtor y
          cases h5 : P.copyCtor y <;>
            simp_all [Optional.Emplace, Optional.Reset, Optional.HasValue, bind, pure]
        cases h5 : P.copyCtor y <;>
          simp [Optional.Emplace, Optional.Reset, Optional.HasValue, bind, pure,
            h1, h3, g1, g2, g3, hb, hb2, h5]
        intro a
        have ha := hI a
        by_cases ea : a = this
        · subst ea
          simp [Inv, FlagIffLive, Balanced, constructed, destroyed, live, List.countP_append,
              Event.constructsAt, Event.destroysAt, *]
        · by_cases eb : a = b
          · subst eb
            simp [Inv, FlagIffLive, Balanced, constructed, destroyed, live, List.countP_append,
              Event.constructsAt, Event.destroysAt, *]
          · have ea2 : ¬ this = a := fun h => ea h.symm
            simpa [Inv, FlagIffLive, Balanced, constructed, destroyed, live, List.countP_append,
              Event.constructsAt, Event.destroysAt, ea, eb, ea2] using ha
      · simp [Optional.Emplace, Optional.Reset, Optional.HasValue, bind, pure,
          h1, h2, h3, g1, g3, hb, hb2]
      · refine ⟨fun hP e => ?_, ?_⟩
        · have h6 := hP.copyCtor y
          cases h5 : P.copyCtor y <;>
            simp_all [Optional.Emplace, Optional.Reset, Optional.HasValue, bind, pure]
        cases h5 : P.copyCtor y <;>
          simp [Optional.Emplace, Optional.Reset, Optional.HasValue, bind, pure,
            h1, h2, h3, g1, g2, g3, hb, hb2, h5]
        intro a
        have ha := hI a
        by_cases ea : a = this
        · subst ea
          simp [Inv, FlagIffLive, Balanced, constructed, destroyed, live, List.countP_append,
              Event.constructsAt, Event.destroysAt, *]
        · by_cases eb : a = b
          · subst eb
            simp [Inv, FlagIffLive, Balanced, constructed, destroyed, live, List.countP_append,
              Event.constructsAt, Event.destroysAt, *]
          · have ea2 : ¬ this = a := fun h => ea h.symm
            simpa [Inv, FlagIffLive, Balanced, constructed, destroyed, live, List.countP_append,
              Event.constructsAt, Event.destroysAt, ea, eb, ea2] using ha
  | rvalue b =>
    by_cases hb : b = this
    · subst hb
      rcases (Inv_iff_WF w b).1 (hI b) with ⟨h1, h3⟩ | ⟨x, h1, h2, h3⟩
      · simp [Optional.Emplace, Optional.Reset, Optional.HasValue, bind, pure,
          h1, h3]
      · simp [Optional.Emplace, Optional.Reset, Optional.HasValue, bind, pure,
          h1, h2, h3]
    · have hb2 : this ≠ b := fun e => hb e.symm
      rcases (Inv_iff_WF w this).1 (hI this) with ⟨h1, h3⟩ | ⟨x, h1, h2, h3⟩ <;>
      rcases (Inv_iff_WF w b).1 (hI b) with ⟨g1, g3⟩ | ⟨y, g1, g2, g3⟩
      · simp [Optional.Emplace, Optional.Reset, Optional.HasValue, bind, pure,
          h1, h3, g1, g3, hb, hb2]
      · refine ⟨fun hP e => ?_, ?_⟩
        · have h6 := hP.moveCtor y
          cases h5 : (P.moveCtor y).1 <;>
            simp_all [Optional.Emplace, Optional.Reset, Optional.HasValue, bind, pure]
        cases h5 : (P.moveCtor y).1 <;>
          simp [Optional.Emplace, Optional.Reset, Optional.HasValue, bind, pure,
            h1, h3, g1, g2, g3, hb, hb2, h5]
        intro a
        have ha := hI a
        by_cases ea : a = this
        · subst ea
          simp [Inv, FlagIffLive, Balanced, constructed, destroyed, live, List.countP_append,
              Event.constructsAt, Event.destroysAt, *]
        · by_cases eb : a = b
          · subst eb
            simp [Inv, FlagIffLive, Balanced, constructed, destroyed, live, List.countP_append,
              Event.constructsAt, Event.destroysAt, *]
          · have ea2 : ¬ this = a := fun h => ea h.symm
            simpa [Inv, FlagIffLive, Balanced, constructed, destroyed, live, List.countP_append,
              Event.constructsAt, Event.destroysAt, ea, eb, ea2] using ha
      · simp [Optional.Emplace, Optional.Reset, Optional.HasValue, bind, pure,
          h1, h2, h3, g1, g3, hb, hb2]
      · refine ⟨fun hP e => ?_, ?_⟩
        · have h6 := hP.moveCtor y
          cases h5 : (P.moveCtor y).1 <;>
            simp_all [Optional.Emplace, Optional.Reset, Optional.HasValue, bind, pure]
        cases h5 : (P.moveCtor y).1 <;>
          simp [Optional.Emplace, Optional.Reset, Optional.HasValue, bind, pure,
            h1, h2, h3, g1, g2, g3, hb, hb2, h5]
        intro a
        have ha := hI a
        by_cases ea : a = this
        · subst ea
          simp [Inv, FlagIffLive, Balanced, constructed, destroyed, live, List.countP_append,
              Event.constructsAt, Event.destroysAt, *]
        · by_cases eb : a = b
          · subst eb
            simp [Inv, FlagIffLive, Balanced, constructed, destroyed, live, List.countP_append,
              Event.constructsAt, Event.destroysAt, *]
          · have ea2 : ¬ this = a := fun h => ea h.symm
            simpa [Inv, FlagIffLive, Balanced, constructed, destroyed, live, List.countP_append,
              Event.constructsAt, Event.destroysAt, ea, eb, ea2] using ha

/-- `Optional(const T&)` does not throw when the payload type does not, and when it returns it
establishes the invariant at the new container and keeps the invariant and the balance of
every container. -/
theorem step_ctor_value {T A : Type} (P : Payload T A) (w : World T) (this : Addr)
    (arg : Arg T) (hI : ∀ a, a ≠ this → Inv w a) :
    (P.NoThrow → ∀ e, (Optional.ctor_value P this arg w).1 ≠ Res.thrown e) ∧
    ((Optional.ctor_value P this arg w).1 = Res.ok () →
      ∀ a, Inv (Optional.ctor_value P this arg w).2 a ∧
        ((w.objs this).data_ = none → Balanced w a →
          Balanced (Optional.ctor_value P this arg w).2 a)) := by
  cases arg with
  | ext v =>
    · refine ⟨fun hP e => ?_, ?_⟩
      · have h6 := hP.copyCtor v
        cases h5 : P.copyCtor v <;>
          simp_all [Optional.ctor_value, Optional.HasValue, bind, pure]
      cases h5 : P.copyCtor v <;>
        simp [Optional.ctor_value, Optional.HasValue, bind, pure,
          h5]
      intro a
      by_cases ea : a = this
      · subst ea
        refine ⟨?_, fun hraw hb => ?_⟩
        · simp [Inv, FlagIffLive, *]
        · simp_all [Inv, FlagIffLive, Balanced, constructed, destroyed, live, List.countP_append,
            Event.constructsAt, Event.destroysAt]
      · have ea2 : ¬ this = a := fun h => ea h.symm
        have ha := hI a ea
        refine ⟨?_, fun _ hb => ?_⟩
        · simpa [Inv, FlagIffLive, ea, ea2] using ha
        · simpa [Inv, FlagIffLive, Balanced, constructed, destroyed, live, List.countP_append,
            Event.constructsAt, Event.destroysAt, ea, ea2] using hb
  | payload b =>
    by_cases hb : b = this
    · subst hb
      · simp [Optional.ctor_value, Optional.HasValue, bind, pure]
    · have hb2 : this ≠ b := fun e => hb e.symm
      rcases (Inv_iff_WF w b).1 (hI b hb) with ⟨g1, g3⟩ | ⟨y, g1, g2, g3⟩
      · simp [Optional.ctor_value, Optional.HasValue, bind, pure,
          g1, g3, hb, hb2]
      · refine ⟨fun hP e => ?_, ?_⟩
        · have h6 := hP.copyCtor y
          cases h5 : P.copyCtor y <;>
            simp_all [Optional.ctor_value, Optional.HasValue, bind, pure]
        cases h5 : P.copyCtor y <;>
          simp [Optional.ctor_value, Optional.HasValue, bind, pure,
            g1, g2, g3, hb, hb2, h5]
        intro a
        by_cases ea : a = this
        · subst ea
          refine ⟨?_, fun hraw hb => ?_⟩
          · simp [Inv, FlagIffLive, *]
          · simp_all [Inv, FlagIffLive, Balanced, constructed, destroyed, live, List.countP_append,
              Event.constructsAt, Event.destroysAt]
        · have ea2 : ¬ this = a := fun h => ea h.symm
          have ha := hI a ea
          by_cases eb : a = b
          · subst eb
            refine ⟨?_, fun _ hb => ?_⟩
            · simp [Inv, FlagIffLive, *]
            · simp_all [Inv, FlagIffLive, Balanced, constructed, destroyed, live, List.countP_append,
              Event.constructsAt, Event.destroysAt]
          · refine ⟨?_, fun _ hb => ?_⟩
            · simpa [Inv, FlagIffLive, ea, eb, ea2] using ha
            · simpa [Inv, FlagIffLive, Balanced, constructed, destroyed, live, List.countP_append,
              Event.constructsAt, Event.destroysAt, ea, eb, ea2] using hb

/-- `Optional(T&&)` does not throw when the payload type does not, and when it returns it
establishes the invariant at the new container and keeps the invariant and the balance of
every container. -/
theorem step_ctor_rvalue {T A : Type} (P : Payload T A) (w : World T) (this : Addr)
    (arg : Arg T) (hI : ∀ a, a ≠ this → Inv w a) :
    (P.NoThrow → ∀ e, (Optional.ctor_rvalue P this arg w).1 ≠ Res.thrown e) ∧
    ((Optional.ctor_rvalue P this arg w).1 = Res.ok () →
      ∀ a, Inv (Optional.ctor_rvalue P this arg w).2 a ∧
        ((w.objs this).data_ = none → Balanced w a →
          Balanced (Optional.ctor_rvalue P this arg w).2 a)) := by
  cases arg with
  | ext v =>
    · refine ⟨fun hP e => ?_, ?_⟩
      · have h6 := hP.moveCtor v
        cases h5 : (P.moveCtor v).1 <;>
          simp_all [Optional.ctor_rvalue, Optional.HasValue, bind, pure]
      cases h5 : (P.moveCtor v).1 <;>
        simp [Optional.ctor_rvalue, Optional.HasValue, bind, pure,
          h5]
      intro a
      by_cases ea : a = this
      · subst ea
        refine ⟨?_, fun hraw hb => ?_⟩
        · simp [Inv, FlagIffLive, *]
        · simp_all [Inv, FlagIffLive, Balanced, constructed, destroyed, live, List.countP_append,
            Event.constructsAt, Event.destroysAt]
      · have ea2 : ¬ this = a := fun h => ea h.symm
        have ha := hI a ea
        refine ⟨?_, fun _ hb => ?_⟩
        · simpa [Inv, FlagIffLive, ea, ea2] using ha
        · simpa [Inv, FlagIffLive, Balanced, constructed, destroyed, live, List.countP_append,
            Event.constructsAt, Event.destroysAt, ea, ea2] using hb
  | payload b =>
    by_cases hb : b = this
    · subst hb
      · simp [Optional.ctor_rvalue, Optional.HasValue, bind, pure]
    · have hb2 : this ≠ b := fun e => hb e.symm
      rcases (Inv_iff_WF w b).1 (hI b hb) with ⟨g1, g3⟩ | ⟨y, g1, g2, g3⟩
      · simp [Optional.ctor_rvalue, Optional.HasValue, bind, pure,
          g1, g3, hb, hb2]
      · refine ⟨fun hP e => ?_, ?_⟩
        · have h6 := hP.moveCtor y
          cases h5 : (P.moveCtor y).1 <;>
            simp_all [Optional.ctor_rvalue, Optional.HasValue, bind, pure]
        cases h5 : (P.moveCtor y).1 <;>
          simp [Optional.ctor_rvalue, Optional.HasValue, bind, pure,
            g1, g2, g3, hb, hb2, h5]
        intro a
        by_cases ea : a = this
        · subst ea
          refine ⟨?_, fun hraw hb => ?_⟩
          · simp [Inv, FlagIffLive, *]
          · simp_all [Inv, FlagIffLive, Balanced, constructed, destroyed, live, List.countP_append,
              Event.constructsAt, Event.destroysAt]
        · have ea2 : ¬ this = a := fun h => ea h.symm
          have ha := hI a ea
          by_cases eb : a = b
          · subst eb
            refine ⟨?_, fun _ hb => ?_⟩
            · simp [Inv, FlagIffLive, *]
            · simp_all [Inv, FlagIffLive, Balanced, constructed, destroyed, live, List.countP_append,
              Event.constructsAt, Event.destroysAt]
          · refine ⟨?_, fun _ hb => ?_⟩
            · simpa [Inv, FlagIffLive, ea, eb, ea2] using ha
            · simpa [Inv, FlagIffLive, Balanced, constructed, destroyed, live, List.countP_append,
              Event.constructsAt, Event.destroysAt, ea, eb, ea2] using hb

/-- `Optional()` establishes the invariant at the new container and keeps the invariant
and the balance of every container (the storage it is built in being raw). -/
theorem step_ctor_default {T : Type} (w : World T) (this : Addr)
    (hI : ∀ a, a ≠ this → Inv w a) :
    (Optional.ctor_default this w).1 = Res.ok () ∧
    ∀ a, Inv (Optional.ctor_default this w).2 a ∧
      ((w.objs this).data_ = none → Balanced w a →
        Balanced (Optional.ctor_default this w).2 a) := by
  simp [Optional.ctor_default]
  intro a
  by_cases ea : a = this
  · subst ea
    refine ⟨?_, fun hraw hb => ?_⟩
    · simp [Inv, FlagIffLive, *]
    · simp_all [Inv, FlagIffLive, Balanced, constructed, destroyed, live, List.countP_append,
            Event.constructsAt, Event.destroysAt]
  · have ea2 : ¬ this = a := fun h => ea h.symm
    have ha := hI a ea
    refine ⟨?_, fun _ hb => ?_⟩
    · simpa [Inv, FlagIffLive, ea, ea2] using ha
    · simpa [Inv, FlagIffLive, Balanced, constructed, destroyed, live, List.countP_append,
            Event.constructsAt, Event.destroysAt, ea, ea2] using hb

/-- `Optional(const Optional&)` returns when the payload type does not throw, and when it returns it establishes the invariant at the new container and keeps the invariant and the balance of every container. -/
theorem step_ctor_copy {T A : Type} (P : Payload T A) (w : World T) (this other : Addr)
    (hI : ∀ a, a ≠ this → Inv w a) :
    (P.NoThrow → (Optional.ctor_copy P this other w).1 = Res.ok ()) ∧
    ((Optional.ctor_copy P this other w).1 = Res.ok () →
      ∀ a, Inv (Optional.ctor_copy P this other w).2 a ∧
        ((w.objs this).data_ = none → Balanced w a →
          Balanced (Optional.ctor_copy P this other w).2 a)) := by
  by_cases e : this = other
  · subst e
    simp [Optional.ctor_copy, Optional.star_const, Optional.HasValue, bind, pure]
    intro a
    by_cases ea : a = this
    · subst ea
      refine ⟨?_, fun hraw hb => ?_⟩
      · simp [Inv, FlagIffLive, *]
      · simp_all [Inv, FlagIffLive, Balanced, constructed, destroyed, live, List.countP_append,
              Event.constructsAt, Event.destroysAt]
    · have ea2 : ¬ this = a := fun h => ea h.symm
      have ha := hI a ea
      refine ⟨?_, fun _ hb => ?_⟩
      · simpa [Inv, FlagIffLive, ea, ea2] using ha
      · simpa [Inv, FlagIffLive, Balanced, constructed, destroyed, live, List.countP_append,
              Event.constructsAt, Event.destroysAt, ea, ea2] using hb
  · have e2 : other ≠ this := fun h => e h.symm
    rcases (Inv_iff_WF w other).1 (hI other e2) with ⟨g1, g3⟩ | ⟨y, g1, g2, g3⟩
    · simp [Optional.ctor_copy, Optional.star_const, Optional.HasValue, bind, pure, g1, g3, e, e2]
      intro a
      by_cases ea : a = this
      · subst ea
        refine ⟨?_, fun hraw hb => ?_⟩
        · simp [Inv, FlagIffLive, *]
        · simp_all [Inv, FlagIffLive, Balanced, constructed, destroyed, live, List.countP_append,
                Event.constructsAt, Event.destroysAt]
      · have ea2 : ¬ this = a := fun h => ea h.symm
        have ha := hI a ea
        refine ⟨?_, fun _ hb => ?_⟩
        · simpa [Inv, FlagIffLive, ea, ea2] using ha
        · simpa [Inv, FlagIffLive, Balanced, constructed, destroyed, live, List.countP_append,
                Event.constructsAt, Event.destroysAt, ea, ea2] using hb
    · refine ⟨fun hP => ?_, ?_⟩
      · have := hP.copyCtor y
        cases h5 : P.copyCtor y <;> simp_all [Optional.ctor_copy, Optional.star_const, Optional.HasValue, bind, pure]
      cases h5 : P.copyCtor y <;> simp [Optional.ctor_copy, Optional.star_const, Optional.HasValue, bind, pure, g1, g2, g3, h5, e, e2]
      intro a
      by_cases ea : a = this
      · subst ea
        refine ⟨?_, fun hraw hb => ?_⟩
        · simp [Inv, FlagIffLive, *]
        · simp_all [Inv, FlagIffLive, Balanced, constructed, destroyed, live, List.countP_append,
                Event.constructsAt, Event.destroysAt]
      · have ea2 : ¬ this = a := fun h => ea h.symm
        have ha := hI a ea
        by_cases eb : a = other
        · subst eb
          refine ⟨?_, fun _ hb => ?_⟩
          · simp [Inv, FlagIffLive, *]
          · simp_all [Inv, FlagIffLive, Balanced, constructed, destroyed, live, List.countP_append,
                Event.constructsAt, Event.destroysAt]
        · refine ⟨?_, fun _ hb => ?_⟩
          · simpa [Inv, FlagIffLive, ea, eb, ea2] using ha
          · simpa [Inv, FlagIffLive, Balanced, constructed, destroyed, live, List.countP_append,
                Event.constructsAt, Event.destroysAt, ea, eb, ea2] using hb

/-- `Optional(Optional&&)` returns when the payload type does not throw, and when it returns it establishes the invariant at the new container and keeps the invariant and the balance of every container. -/
theorem step_ctor_move {T A : Type} (P : Payload T A) (w : World T) (this other : Addr)
    (hI : ∀ a, a ≠ this → Inv w a) :
    (P.NoThrow → (Optional.ctor_move P this other w).1 = Res.ok ()) ∧
    ((Optional.ctor_move P this other w).1 = Res.ok () →
      ∀ a, Inv (Optional.ctor_move P this other w).2 a ∧
        ((w.objs this).data_ = none → Balanced w a →
          Balanced (Optional.ctor_move P this other w).2 a)) := by
  by_cases e : this = other
  · subst e
    simp [Optional.ctor_move, Optional.star, Optional.HasValue, bind, pure]
    intro a
    by_cases ea : a = this
    · subst ea
      refine ⟨?_, fun hraw hb => ?_⟩
      · simp [Inv, FlagIffLive, *]
      · simp_all [Inv, FlagIffLive, Balanced, constructed, destroyed, live, List.countP_append,
              Event.constructsAt, Event.destroysAt]
    · have ea2 : ¬ this = a := fun h => ea h.symm
      have ha := hI a ea
      refine ⟨?_, fun _ hb => ?_⟩
      · simpa [Inv, FlagIffLive, ea, ea2] using ha
      · simpa [Inv, FlagIffLive, Balanced, constructed, destroyed, live, List.countP_append,
              Event.constructsAt, Event.destroysAt, ea, ea2] using hb
  · have e2 : other ≠ this := fun h => e h.symm
    rcases (Inv_iff_WF w other).1 (hI other e2) with ⟨g1, g3⟩ | ⟨y, g1, g2, g3⟩
    · simp [Optional.ctor_move, Optional.star, Optional.HasValue, bind, pure, g1, g3, e, e2]
      intro a
      by_cases ea : a = this
      · subst ea
        refine ⟨?_, fun hraw hb => ?_⟩
        · simp [Inv, FlagIffLive, *]
        · simp_all [Inv, FlagIffLive, Balanced, constructed, destroyed, live, List.countP_append,
                Event.constructsAt, Event.destroysAt]
      · have ea2 : ¬ this = a := fun h => ea h.symm
        have ha := hI a ea
        refine ⟨?_, fun _ hb => ?_⟩
        · simpa [Inv, FlagIffLive, ea, ea2] using ha
        · simpa [Inv, FlagIffLive, Balanced, constructed, destroyed, live, List.countP_append,
                Event.constructsAt, Event.destroysAt, ea, ea2] using hb
    · refine ⟨fun hP => ?_, ?_⟩
      · have := hP.moveCtor y
        cases h5 : (P.moveCtor y).1 <;> simp_all [Optional.ctor_move, Optional.star, Optional.HasValue, bind, pure]
      cases h5 : (P.moveCtor y).1 <;> simp [Optional.ctor_move, Optional.star, Optional.HasValue, bind, pure, g1, g2, g3, h5, e, e2]
      intro a
      by_cases ea : a = this
      · subst ea
        refine ⟨?_, fun hraw hb => ?_⟩
        · simp [Inv, FlagIffLive, *]
        · simp_all [Inv, FlagIffLive, Balanced, constructed, destroyed, live, List.countP_append,
                Event.constructsAt, Event.destroysAt]
      · have ea2 : ¬ this = a := fun h => ea h.symm
        have ha := hI a ea
        by_cases eb : a = other
        · subst eb
          refine ⟨?_, fun _ hb => ?_⟩
          · simp [Inv, FlagIffLive, *]
          · simp_all [Inv, FlagIffLive, Balanced, constructed, destroyed, live, List.countP_append,
                Event.constructsAt, Event.destroysAt]
        · refine ⟨?_, fun _ hb => ?_⟩
          · simpa [Inv, FlagIffLive, ea, eb, ea2] using ha
          · simpa [Inv, FlagIffLive, Balanced, constructed, destroyed, live, List.countP_append,
                Event.constructsAt, Event.destroysAt, ea, eb, ea2] using hb

/-- `~Optional()` returns, leaves the storage of the container raw, and keeps the invariant
of every other container and the balance of every container. -/
theorem step_dtor {T : Type} (w : World T) (this : Addr) (hI : ∀ a, Inv w a) :
    (Optional.dtor this w).1 = Res.ok () ∧
    ((Optional.dtor this w).2.objs this).data_ = none ∧
    ∀ a, (a ≠ this → Inv (Optional.dtor this w).2 a) ∧
      (Balanced w a → Balanced (Optional.dtor this w).2 a) := by
  rcases (Inv_iff_WF w this).1 (hI this) with ⟨h1, h3⟩ | ⟨x, h1, h2, h3⟩
  · simp [Optional.dtor, Optional.HasValue, bind, pure, h1, h3]
    exact fun a => fun _ => hI a
  · simp [Optional.dtor, Optional.HasValue, bind, pure, h1, h2, h3]
    intro a
    have ha := hI a
    by_cases ea : a = this
    · subst ea
      simp [Inv, FlagIffLive, Balanced, constructed, destroyed, live, List.countP_append,
          Event.constructsAt, Event.destroysAt, *]
    · have ea2 : ¬ this = a := fun h => ea h.symm
      simpa [Inv, FlagIffLive, Balanced, constructed, destroyed, live, List.countP_append,
          Event.constructsAt, Event.destroysAt, ea, ea2] using ha

/-- Every mutating member function: it does not throw when the payload type does not, and
when it returns it keeps the invariant and the balance of every container. -/
theorem step_Cmd {T A : Type} (P : Payload T A) (w : World T) (this : Addr) (c : Cmd T A)
    (hI : ∀ a, Inv w a) :
    (P.NoThrow → ∀ e, (c.run P this w).1 ≠ Res.thrown e) ∧
    ((c.run P this w).1 = Res.ok () →
      ∀ a, Inv (c.run P this w).2 a ∧ (Balanced w a → Balanced (c.run P this w).2 a)) := by
  cases c with
  | assign_value v => exact step_assign_value P w this v hI
  | assign_rvalue v => exact step_assign_rvalue P w this v hI
  | assign_copy rhs =>
    refine ⟨fun hP e h => ?_, (step_assign_copy P w this rhs hI).2⟩
    have hok : (Optional.assign_copy P this rhs w).1 = Res.ok () :=
      (step_assign_copy P w this rhs hI).1 hP
    have h2 : (Optional.assign_copy P this rhs w).1 = Res.thrown e := h
    rw [hok] at h2
    cases h2
  | assign_move rhs =>
    refine ⟨fun hP e h => ?_, (step_assign_move P w this rhs hI).2⟩
    have hok : (Optional.assign_move P this rhs w).1 = Res.ok () :=
      (step_assign_move P w this rhs hI).1 hP
    have h2 : (Optional.assign_move P this rhs w).1 = Res.thrown e := h
    rw [hok] at h2
    cases h2
  | Reset =>
    refine ⟨fun _ e h => ?_, fun _ => (step_Reset w this hI).2⟩
    have hok : (Optional.Reset this w).1 = Res.ok () := (step_Reset w this hI).1
    have h2 : (Optional.Reset this w).1 = Res.thrown e := h
    rw [hok] at h2
    cases h2
  | Emplace args => exact step_Emplace P w this args hI

/-- Every constructor: it does not throw when the payload type does not, and when it
returns the invariant holds at every container and the balance of every container is kept
(the storage the container is built in being raw). -/
theorem step_Ctor {T A : Type} (P : Payload T A) (w : World T) (this : Addr) (c : Ctor T)
    (hI : ∀ a, a ≠ this → Inv w a) :
    (P.NoThrow → ∀ e, (c.run P this w).1 ≠ Res.thrown e) ∧
    ((c.run P this w).1 = Res.ok () →
      ∀ a, Inv (c.run P this w).2 a ∧
        ((w.objs this).data_ = none → Balanced w a → Balanced (c.run P this w).2 a)) := by
  cases c with
  | empty =>
    refine ⟨fun _ e h => ?_, fun _ => (step_ctor_default w this hI).2⟩
    have hok : (Optional.ctor_default this w).1 = Res.ok () := (step_ctor_default w this hI).1
    have h2 : (Optional.ctor_default this w).1 = Res.thrown e := h
    rw [hok] at h2
    cases h2
  | value v => exact step_ctor_value P w this v hI
  | rvalue v => exact step_ctor_rvalue P w this v hI
  | copy other =>
    refine ⟨fun hP e h => ?_, (step_ctor_copy P w this other hI).2⟩
    have hok : (Optional.ctor_copy P this other w).1 = Res.ok () :=
      (step_ctor_copy P w this other hI).1 hP
    have h2 : (Optional.ctor_copy P this other w).1 = Res.thrown e := h
    rw [hok] at h2
    cases h2
  | move other =>
    refine ⟨fun hP e h => ?_, (step_ctor_move P w this other hI).2⟩
    have hok : (Optional.ctor_move P this other w).1 = Res.ok () :=
      (step_ctor_move P w this other hI).1 hP
    have h2 : (Optional.ctor_move P this other w).1 = Res.thrown e := h
    rw [hok] at h2
    cases h2

/-- A sequence of mutating member functions of a payload type that does not throw: when it
returns it has kept the invariant and the balance of every container. -/
theorem step_runCmds {T A : Type} (P : Payload T A) (hP : P.NoThrow) (this : Addr)
    (cmds : List (Cmd T A)) :
    ∀ w : World T, (∀ a, Inv w a) → (runCmds P this cmds w).1 = Res.ok () →
      ∀ a, Inv (runCmds P this cmds w).2 a ∧
        (Balanced w a → Balanced (runCmds P this cmds w).2 a) := by
  induction cmds with
  | nil =>
    intro w hI _ a
    exact ⟨hI a, fun hb => hb⟩
  | cons c cs ih =>
    intro w hI
    have hc := step_Cmd P w this c hI
    cases hres : c.run P this w with
    | mk r w1 =>
      rw [hres] at hc
      cases r with
      | ok u =>
        have ih1 := ih w1 (fun a => (hc.2 rfl a).1)
        simp only [runCmds, hres]
        exact fun hok a => ⟨(ih1 hok a).1, fun hb => (ih1 hok a).2 ((hc.2 rfl a).2 hb)⟩
      | thrown e => exact absurd rfl (hc.1 hP e)
      | ub =>
        simp only [runCmds, hres]
        exact fun hok => by simp at hok
      | terminated =>
        simp only [runCmds, hres]
        exact fun hok => by simp at hok

/-- Construction followed by a sequence of mutating member functions, of a payload type
that does not throw: when it returns the invariant holds at every container and the
balance of every container is kept. -/
theorem step_alive {T A : Type} (P : Payload T A) (hP : P.NoThrow) (this : Addr) (c : Ctor T)
    (cmds : List (Cmd T A)) (w : World T) (hI : ∀ a, a ≠ this → Inv w a) :
    (alive P this c cmds w).1 = Res.ok () →
      ∀ a, Inv (alive P this c cmds w).2 a ∧
        ((w.objs this).data_ = none → Balanced w a → Balanced (alive P this c cmds w).2 a) := by
  have hc := step_Ctor P w this c hI
  cases hres : c.run P this w with
  | mk r w1 =>
    rw [hres] at hc
    cases r with
    | ok u =>
      have ih1 := step_runCmds P hP this cmds w1 (fun a => (hc.2 rfl a).1)
      simp only [alive, M.bind, hres]
      exact fun hok a =>
        ⟨(ih1 hok a).1, fun hraw hb => (ih1 hok a).2 ((hc.2 rfl a).2 hraw hb)⟩
    | thrown e => exact absurd rfl (hc.1 hP e)
    | ub =>
      simp only [alive, M.bind, hres]
      exact fun hok => by simp at hok
    | terminated =>
      simp only [alive, M.bind, hres]
      exact fun hok => by simp at hok

/-- No special member function of `natPayload` throws. -/
theorem natPayload_noThrow : natPayload.NoThrow :=
  ⟨fun _ => rfl, fun _ => rfl, fun _ => rfl, fun _ _ => rfl, fun _ _ => rfl⟩

/-- In fresh memory every container slot satisfies the invariant. -/
theorem Inv_fresh {T : Type} (a : Addr) : Inv (World.fresh : World T) a := by
  simp [Inv, FlagIffLive, World.fresh]

/-- Destructor discipline holds as long as no special member function of the payload type
throws: a container is constructed in raw storage, any finite sequence of assignments,
`Reset()` and `Emplace(...)` is run on it, and it is destroyed.  Before the destruction
the payloads constructed in the container are those destroyed plus the one alive, and
after it there are as many constructions as destructions and nothing is alive. -/
theorem discipline_of_noThrow {T A : Type} (P : Payload T A) (hP : P.NoThrow) (w : World T)
    (this : Addr) (c : Ctor T) (cmds : List (Cmd T A)) (hI : ∀ a, Inv w a)
    (hraw : (w.objs this).data_ = none)
    (h0 : constructed w.trace this = destroyed w.trace this) :
    ((alive P this c cmds w).1 = Res.ok () → Balanced (alive P this c cmds w).2 this) ∧
    ((lifetime P this c cmds w).1 = Res.ok () →
      constructed (lifetime P this c cmds w).2.trace this
        = destroyed (lifetime P this c cmds w).2.trace this ∧
      live (lifetime P this c cmds w).2 this = 0) := by
  have hb0 : Balanced w this := by simp [Balanced, live, hraw, h0]
  have ha := step_alive P hP this c cmds w (fun a _ => hI a)
  cases hres : alive P this c cmds w with
  | mk r w1 =>
    rw [hres] at ha
    cases r with
    | ok u =>
      have hI1 : ∀ a, Inv w1 a := fun a => (ha rfl a).1
      have hb1 : Balanced w1 this := (ha rfl this).2 hraw hb0
      have hd := step_dtor w1 this hI1
      have hl : live (Optional.dtor this w1).2 this = 0 := by simp [live, hd.2.1]
      have hb2 := (hd.2.2 this).2 hb1
      simp only [lifetime, M.bind, hres]
      refine ⟨fun _ => hb1, fun _ => ⟨?_, hl⟩⟩
      simpa [Balanced, hl] using hb2
    | thrown e =>
      simp only [lifetime, M.bind, hres]
      exact ⟨fun hok => by simp at hok, fun hok => by simp at hok⟩
    | ub =>
      simp only [lifetime, M.bind, hres]
      exact ⟨fun hok => by simp at hok, fun hok => by simp at hok⟩
    | terminated =>
      simp only [lifetime, M.bind, hres]
      exact ⟨fun hok => by simp at hok, fun hok => by simp at hok⟩

/-- C11 at the failing input: a container of a payload type whose copy constructor throws
on 0 is default-constructed, assigned the raw value 0 (the exception is caught), and
destroyed.  When the destructor is entered no payload was ever constructed and none is
alive, yet `HasValue()` is true, so `~Optional()` runs `value_->~T()` on a null pointer.
The same with a container that held 5 and was `Reset()`: one payload was constructed and
one destroyed, none is alive, and the destructor runs `~T()` on the dead storage, a
second destruction of the one payload. -/
theorem C11_destructor_after_failed_assign :
    (alive pickyPayload 0 Ctor.empty [Cmd.assign_value (Arg.ext 0)] World.fresh).1
      = Res.ok () ∧
    constructed
      (alive pickyPayload 0 Ctor.empty [Cmd.assign_value (Arg.ext 0)] World.fresh).2.trace 0
      = 0 ∧
    live (alive pickyPayload 0 Ctor.empty [Cmd.assign_value (Arg.ext 0)] World.fresh).2 0
      = 0 ∧
    (Optional.HasValue 0
      (alive pickyPayload 0 Ctor.empty [Cmd.assign_value (Arg.ext 0)] World.fresh).2).1
      = Res.ok true ∧
    (lifetime pickyPayload 0 Ctor.empty [Cmd.assign_value (Arg.ext 0)] World.fresh).1
      = Res.ub ∧
    (alive pickyPayload 0 (Ctor.value (Arg.ext 5))
      [Cmd.Reset, Cmd.assign_value (Arg.ext 0)] World.fresh).1 = Res.ok () ∧
    constructed (alive pickyPayload 0 (Ctor.value (Arg.ext 5))
      [Cmd.Reset, Cmd.assign_value (Arg.ext 0)] World.fresh).2.trace 0 = 1 ∧
    destroyed (alive pickyPayload 0 (Ctor.value (Arg.ext 5))
      [Cmd.Reset, Cmd.assign_value (Arg.ext 0)] World.fresh).2.trace 0 = 1 ∧
    live (alive pickyPayload 0 (Ctor.value (Arg.ext 5))
      [Cmd.Reset, Cmd.assign_value (Arg.ext 0)] World.fresh).2 0 = 0 ∧
    (Optional.HasValue 0 (alive pickyPayload 0 (Ctor.value (Arg.ext 5))
      [Cmd.Reset, Cmd.assign_value (Arg.ext 0)] World.fresh).2).1 = Res.ok true ∧
    (lifetime pickyPayload 0 (Ctor.value (Arg.ext 5))
      [Cmd.Reset, Cmd.assign_value (Arg.ext 0)] World.fresh).1 = Res.ub := by
  refine ⟨rfl, rfl, rfl, rfl, rfl, rfl, rfl, rfl, rfl, rfl, rfl⟩

/-- An instance of the discipline with a payload type that does not throw: a container
built from 5, then `Emplace(7)`, `Reset()` and assignment of 3, is destroyed holding 3;
three payloads were constructed and three destroyed. -/
theorem discipline_example :
    (lifetime natPayload 0 (Ctor.value (Arg.ext 5))
        [Cmd.Emplace (Pack.args 7), Cmd.Reset, Cmd.assign_value (Arg.ext 3)]
        World.fresh).1 = Res.ok () ∧
    constructed (lifetime natPayload 0 (Ctor.value (Arg.ext 5))
        [Cmd.Emplace (Pack.args 7), Cmd.Reset, Cmd.assign_value (Arg.ext 3)]
        World.fresh).2.trace 0 = 3 ∧
    destroyed (lifetime natPayload 0 (Ctor.value (Arg.ext 5))
        [Cmd.Emplace (Pack.args 7), Cmd.Reset, Cmd.assign_value (Arg.ext 3)]
        World.fresh).2.trace 0 = 3 := by
  simp [lifetime, alive, runCmds, Cmd.run, Ctor.run, Optional.ctor_value, Optional.Emplace,
    Optional.Reset, Optional.assign_value, Optional.dtor, Optional.HasValue, bind, pure,
    natPayload, World.fresh, constructed, destroyed, Event.constructsAt, Event.destroysAt]

/-- Mutating a well-formed container at `pb` leaves an Engaged container at another address
`pa` as it is, whatever the outcome of the call, unless the call is handed the container
at `pa` or its payload as an rvalue to move from. -/
theorem mutation_frame {T A : Type} (P : Payload T A) (w : World T) (pa pb : Addr) (x : T)
    (hne : pb ≠ pa) (hA : Engaged w pa x) (hB : Inv w pb) :
    (∀ arg, Engaged (Optional.assign_value P pb arg w).2 pa x) ∧
    (∀ arg, arg.refers pa = false → Engaged (Optional.assign_rvalue P pb arg w).2 pa x) ∧
    (∀ args, args.movesFrom pa = false → Engaged (Optional.Emplace P pb args w).2 pa x) ∧
    Engaged (Optional.Reset pb w).2 pa x ∧
    (∀ rhs, Inv w rhs → Engaged (Optional.assign_copy P pb rhs w).2 pa x) ∧
    (∀ rhs, rhs ≠ pa → Inv w rhs → Engaged (Optional.assign_move P pb rhs w).2 pa x) := by
  have hne2 : pa ≠ pb := fun h => hne h.symm
  obtain ⟨a1, a2, a3⟩ := hA
  refine ⟨?_, ?_, ?_, ?_, ?_, ?_⟩
  · intro arg
    cases arg with
    | ext v =>
      rcases (Inv_iff_WF w pb).1 hB with ⟨h1, h3⟩ | ⟨y, h1, h2, h3⟩
      · cases h5 : P.copyCtor v <;>
          simp [Optional.assign_value, Optional.HasValue, Engaged, bind, pure,
            h1, h3, hne, hne2, a1, a2, a3, h5]
      · cases h5 : (P.copyAssign y v).2 <;>
          simp [Optional.assign_value, Optional.HasValue, Engaged, bind, pure,
            h1, h2, h3, hne, hne2, a1, a2, a3, h5]
    | payload c =>
      by_cases e1 : c = pb
      · subst e1
        rcases (Inv_iff_WF w c).1 hB with ⟨h1, h3⟩ | ⟨y, h1, h2, h3⟩
        · simp [Optional.assign_value, Optional.HasValue, Engaged, bind, pure,
            h1, h3, hne, hne2, a1, a2, a3]
        · cases h5 : (P.copyAssign y y).2 <;>
            simp [Optional.assign_value, Optional.HasValue, Engaged, bind, pure,
              h1, h2, h3, hne, hne2, a1, a2, a3, h5]
      · have e2 : pb ≠ c := fun e => e1 e.symm
        rcases (Inv_iff_WF w pb).1 hB with ⟨h1, h3⟩ | ⟨y, h1, h2, h3⟩
        · cases hc : (w.objs c).data_ with
          | none =>
            simp [Optional.assign_value, Optional.HasValue, Engaged, bind, pure,
              h1, h3, hc, e1, e2, hne, hne2, a1, a2, a3]
          | some z =>
            cases h5 : P.copyCtor z <;>
              simp [Optional.assign_value, Optional.HasValue, Engaged, bind, pure,
                h1, h3, hc, e1, e2, hne, hne2, a1, a2, a3, h5]
        · cases hc : (w.objs c).data_ with
          | none =>
            simp [Optional.assign_value, Optional.HasValue, Engaged, bind, pure,
              h1, h2, h3, hc, e1, e2, hne, hne2, a1, a2, a3]
          | some z =>
            cases h5 : (P.copyAssign y z).2 <;>
              simp [Optional.assign_value, Optional.HasValue, Engaged, bind, pure,
                h1, h2, h3, hc, e1, e2, hne, hne2, a1, a2, a3, h5]
  · intro arg hr
    cases arg with
    | ext v =>
      rcases (Inv_iff_WF w pb).1 hB with ⟨h1, h3⟩ | ⟨y, h1, h2, h3⟩
      · cases h5 : (P.moveCtor v).1 <;>
          simp [Optional.assign_rvalue, Optional.HasValue, Engaged, bind, pure,
            h1, h3, hne, hne2, a1, a2, a3, h5]
      · cases h5 : (P.moveAssign y v).2 <;>
          simp [Optional.assign_rvalue, Optional.HasValue, Engaged, bind, pure,
            h1, h2, h3, hne, hne2, a1, a2, a3, h5]
    | payload c =>
      have hcpa : c ≠ pa := by simpa using hr
      have hcpa2 : pa ≠ c := fun e => hcpa e.symm
      by_cases e1 : c = pb
      · subst e1
        rcases (Inv_iff_WF w c).1 hB with ⟨h1, h3⟩ | ⟨y, h1, h2, h3⟩
        · simp [Optional.assign_rvalue, Optional.HasValue, Engaged, bind, pure,
            h1, h3, hne, hne2, a1, a2, a3]
        · cases h5 : (P.moveAssign y y).2 <;>
            simp [Optional.assign_rvalue, Optional.HasValue, Engaged, bind, pure,
              h1, h2, h3, hne, hne2, a1, a2, a3, h5]
      · have e2 : pb ≠ c := fun e => e1 e.symm
        rcases (Inv_iff_WF w pb).1 hB with ⟨h1, h3⟩ | ⟨y, h1, h2, h3⟩
        · cases hc : (w.objs c).data_ with
          | none =>
            simp [Optional.assign_rvalue, Optional.HasValue, Engaged, bind, pure,
              h1, h3, hc, e1, e2, hcpa, hcpa2, hne, hne2, a1, a2, a3]
          | some z =>
            cases h5 : (P.moveCtor z).1 <;>
              simp [Optional.assign_rvalue, Optional.HasValue, Engaged, bind, pure,
                h1, h3, hc, e1, e2, hcpa, hcpa2, hne, hne2, a1, a2, a3, h5]
        · cases hc : (w.objs c).data_ with
          | none =>
            simp [Optional.assign_rvalue, Optional.HasValue, Engaged, bind, pure,
              h1, h2, h3, hc, e1, e2, hcpa, hcpa2, hne, hne2, a1, a2, a3]
          | some z =>
            cases h5 : (P.moveAssign y z).2 <;>
              simp [Optional.assign_rvalue, Optional.HasValue, Engaged, bind, pure,
                h1, h2, h3, hc, e1, e2, hcpa, hcpa2, hne, hne2, a1, a2, a3, h5]
  · intro args hr
    cases args with
    | args v =>
      rcases (Inv_iff_WF w pb).1 hB with ⟨h1, h3⟩ | ⟨y, h1, h2, h3⟩
      · cases h5 : P.construct v <;>
          simp [Optional.Emplace, Optional.Reset, Optional.HasValue, Engaged, bind, pure,
            h1, h3, hne, hne2, a1, a2, a3, h5]
      · cases h5 : P.construct v <;>
          simp [Optional.Emplace, Optional.Reset, Optional.HasValue, Engaged, bind, pure,
            h1, h2, h3, hne, hne2, a1, a2, a3, h5]
    | lvalue c =>
      by_cases e1 : c = pb
      · subst e1
        rcases (Inv_iff_WF w c).1 hB with ⟨h1, h3⟩ | ⟨y, h1, h2, h3⟩
        · simp [Optional.Emplace, Optional.Reset, Optional.HasValue, Engaged, bind, pure,
            h1, h3, hne, hne2, a1, a2, a3]
        · simp [Optional.Emplace, Optional.Reset, Optional.HasValue, Engaged, bind, pure,
            h1, h2, h3, hne, hne2, a1, a2, a3]
      · have e2 : pb ≠ c := fun e => e1 e.symm
        rcases (Inv_iff_WF w pb).1 hB with ⟨h1, h3⟩ | ⟨y, h1, h2, h3⟩
        · cases hc : (w.objs c).data_ with
          | none =>
            simp [Optional.Emplace, Optional.Reset, Optional.HasValue, Engaged, bind, pure,
              h1, h3, hc, e1, e2, hne, hne2, a1, a2, a3]
          | some z =>
            cases h5 : P.copyCtor z <;>
              simp [Optional.Emplace, Optional.Reset, Optional.HasValue, Engaged, bind, pure,
                h1, h3, hc, e1, e2, hne, hne2, a1, a2, a3, h5]
        · cases hc : (w.objs c).data_ with
          | none =>
            simp [Optional.Emplace, Optional.Reset, Optional.HasValue, Engaged, bind, pure,
              h1, h2, h3, hc, e1, e2, hne, hne2, a1, a2, a3]
          | some z =>
            cases h5 : P.copyCtor z <;>
              simp [Optional.Emplace, Optional.Reset, Optional.HasValue, Engaged, bind, pure,
                h1, h2, h3, hc, e1, e2, hne, hne2, a1, a2, a3, h5]
    | rvalue c =>
      have hcpa : c ≠ pa := by simpa using hr
      have hcpa2 : pa ≠ c := fun e => hcpa e.symm
      by_cases e1 : c = pb
      · subst e1
        rcases (Inv_iff_WF w c).1 hB with ⟨h1, h3⟩ | ⟨y, h1, h2, h3⟩
        · simp [Optional.Emplace, Optional.Reset, Optional.HasValue, Engaged, bind, pure,
            h1, h3, hne, hne2, a1, a2, a3]
        · simp [Optional.Emplace, Optional.Reset, Optional.HasValue, Engaged, bind, pure,
            h1, h2, h3, hne, hne2, a1, a2, a3]
      · have e2 : pb ≠ c := fun e => e1 e.symm
        rcases (Inv_iff_WF w pb).1 hB with ⟨h1, h3⟩ | ⟨y, h1, h2, h3⟩
        · cases hc : (w.objs c).data_ with
          | none =>
            simp [Optional.Emplace, Optional.Reset, Optional.HasValue, Engaged, bind, pure,
              h1, h3, hc, e1, e2, hcpa, hcpa2, hne, hne2, a1, a2, a3]
          | some z =>
            cases h5 : (P.moveCtor z).1 <;>
              simp [Optional.Emplace, Optional.Reset, Optional.HasValue, Engaged, bind, pure,
                h1, h3, hc, e1, e2, hcpa, hcpa2, hne, hne2, a1, a2, a3, h5]
        · cases hc : (w.objs c).data_ with
          | none =>
            simp [Optional.Emplace, Optional.Reset, Optional.HasValue, Engaged, bind, pure,
              h1, h2, h3, hc, e1, e2, hcpa, hcpa2, hne, hne2, a1, a2, a3]
          | some z =>
            cases h5 : (P.moveCtor z).1 <;>
              simp [Optional.Emplace, Optional.Reset, Optional.HasValue, Engaged, bind, pure,
                h1, h2, h3, hc, e1, e2, hcpa, hcpa2, hne, hne2, a1, a2, a3, h5]
  · rcases (Inv_iff_WF w pb).1 hB with ⟨h1, h3⟩ | ⟨y, h1, h2, h3⟩
    · simp [Optional.Reset, Optional.HasValue, Engaged, bind, pure, h1, h3, a1, a2, a3]
    · simp [Optional.Reset, Optional.HasValue, Engaged, bind, pure, h1, h2, h3,
        hne, hne2, a1, a2, a3]
  · intro rhs hR
    by_cases e : pb = rhs
    · subst e
      cases h1 : (w.objs pb).is_initialized_ <;>
        simp [Optional.assign_copy, Optional.HasValue, Engaged, bind, pure, h1, a1, a2, a3]
    · have e2 : rhs ≠ pb := fun h => e h.symm
      rcases (Inv_iff_WF w pb).1 hB with ⟨h1, h3⟩ | ⟨y, h1, h2, h3⟩ <;>
      rcases (Inv_iff_WF w rhs).1 hR with ⟨g1, g3⟩ | ⟨z, g1, g2, g3⟩
      · simp [Optional.assign_copy, Optional.star_const, Optional.HasValue, Engaged, bind,
          pure, h1, h3, g1, g3, a1, a2, a3]
      · cases h5 : P.copyCtor z <;>
          simp [Optional.assign_copy, Optional.star_const, Optional.HasValue, Engaged, bind,
            pure, h1, h3, g1, g2, g3, h5, e, e2, hne, hne2, a1, a2, a3]
      · simp [Optional.assign_copy, Optional.star_const, Optional.HasValue, Engaged, bind,
          pure, h1, h2, h3, g1, g3, e, e2, hne, hne2, a1, a2, a3]
      · cases h5 : (P.copyAssign y z).2 <;>
          simp [Optional.assign_copy, Optional.star_const, Optional.HasValue, Engaged, bind,
            pure, h1, h2, h3, g1, g2, g3, h5, e, e2, hne, hne2, a1, a2, a3]
  · intro rhs hr hR
    have hr2 : pa ≠ rhs := fun h => hr h.symm
    by_cases e : pb = rhs
    · subst e
      cases h1 : (w.objs pb).is_initialized_ <;>
        simp [Optional.assign_move, Optional.HasValue, Engaged, bind, pure, h1, a1, a2, a3]
    · have e2 : rhs ≠ pb := fun h => e h.symm
      rcases (Inv_iff_WF w pb).1 hB with ⟨h1, h3⟩ | ⟨y, h1, h2, h3⟩ <;>
      rcases (Inv_iff_WF w rhs).1 hR with ⟨g1, g3⟩ | ⟨z, g1, g2, g3⟩
      · simp [Optional.assign_move, Optional.star, Optional.HasValue, Engaged, bind,
          pure, h1, h3, g1, g3, a1, a2, a3]
      · cases h5 : (P.moveCtor z).1 <;>
          simp [Optional.assign_move, Optional.star, Optional.HasValue, Engaged, bind,
            pure, h1, h3, g1, g2, g3, h5, e, e2, hne, hne2, hr, hr2, a1, a2, a3]
      · simp [Optional.assign_move, Optional.star, Optional.HasValue, Engaged, bind,
          pure, h1, h2, h3, g1, g3, e, e2, hne, hne2, a1, a2, a3]
      · cases h5 : (P.moveAssign y z).2 <;>
          simp [Optional.assign_move, Optional.star, Optional.HasValue, Engaged, bind,
            pure, h1, h2, h3, g1, g2, g3, h5, e, e2, hne, hne2, hr, hr2, a1, a2, a3]

/-- The claim C12 as stated fails for every mutation of the copy that moves from the
original: after copying the container holding 5 (address 0) to address 1, each of
`b = std::move(a)`, `b = std::move(*a)` and `b.Emplace(std::move(*a))` leaves the original
holding the moved-from value 0, not 5. -/
theorem C12_move_from_original_counterexample :
    Engaged w5 0 5 ∧
    ¬ Engaged (Optional.assign_move natPayload 1 0
        (Optional.ctor_copy natPayload 1 0 w5).2).2 0 5 ∧
    ¬ Engaged (Optional.assign_rvalue natPayload 1 (Arg.payload 0)
        (Optional.ctor_copy natPayload 1 0 w5).2).2 0 5 ∧
    ¬ Engaged (Optional.Emplace natPayload 1 (Pack.rvalue 0)
        (Optional.ctor_copy natPayload 1 0 w5).2).2 0 5 := by
  refine ⟨⟨rfl, rfl, rfl⟩, ?_, ?_, ?_⟩ <;>
    simp [Engaged, w5, Optional.assign_move, Optional.assign_rvalue, Optional.Emplace,
      Optional.Reset, Optional.ctor_copy, Optional.ctor_value, Optional.star,
      Optional.star_const, Optional.HasValue, bind, pure, natPayload, World.fresh]

/-- C12 (amended): copy independence.  For an Engaged container at `pa` with payload `x`,
after copy-constructing a container at `pb` from it, any subsequent mutation of the copy
that is not handed the original or its payload as an rvalue to move from leaves the
original Engaged with payload `x`, whether the mutation returns or throws: assignment
from a raw value through `const T&` (any argument) or through `T&&` (any argument but the
original's payload), `Emplace` (any pack but an rvalue of the original's payload),
`Reset`, copy assignment from any container, move assignment from any container other
than the original. -/
theorem C12_copy_independence {T A : Type} (P : Payload T A) (w : World T) (pa pb : Addr)
    (x y : T) (hne : pb ≠ pa) (hA : Engaged w pa x) (hc : P.copyCtor x = some y) :
    (Optional.ctor_copy P pb pa w).1 = Res.ok () ∧
    Engaged (Optional.ctor_copy P pb pa w).2 pa x ∧
    (∀ arg, Engaged (Optional.assign_value P pb arg (Optional.ctor_copy P pb pa w).2).2 pa x) ∧
    (∀ arg, arg.refers pa = false →
      Engaged (Optional.assign_rvalue P pb arg (Optional.ctor_copy P pb pa w).2).2 pa x) ∧
    (∀ args, args.movesFrom pa = false →
      Engaged (Optional.Emplace P pb args (Optional.ctor_copy P pb pa w).2).2 pa x) ∧
    Engaged (Optional.Reset pb (Optional.ctor_copy P pb pa w).2).2 pa x ∧
    (∀ rhs, Inv (Optional.ctor_copy P pb pa w).2 rhs →
      Engaged (Optional.assign_copy P pb rhs (Optional.ctor_copy P pb pa w).2).2 pa x) ∧
    (∀ rhs, rhs ≠ pa → Inv (Optional.ctor_copy P pb pa w).2 rhs →
      Engaged (Optional.assign_move P pb rhs (Optional.ctor_copy P pb pa w).2).2 pa x) := by
  have hne2 : pa ≠ pb := fun h => hne h.symm
  have hA1 : Engaged (Optional.ctor_copy P pb pa w).2 pa x := by
    obtain ⟨a1, a2, a3⟩ := hA
    simp [Optional.ctor_copy, Optional.star_const, Optional.HasValue, Engaged, bind, pure,
      a1, a2, a3, hc, hne, hne2]
  have hB1 : Inv (Optional.ctor_copy P pb pa w).2 pb := by
    obtain ⟨a1, a2, a3⟩ := hA
    simp [Optional.ctor_copy, Optional.star_const, Optional.HasValue, Inv, FlagIffLive, bind,
      pure, a1, a2, a3, hc, hne, hne2]
  have hok : (Optional.ctor_copy P pb pa w).1 = Res.ok () := by
    obtain ⟨a1, a2, a3⟩ := hA
    simp [Optional.ctor_copy, Optional.star_const, Optional.HasValue, bind, pure,
      a1, a2, a3, hc, hne, hne2]
  exact ⟨hok, hA1, mutation_frame P _ pa pb x hne hA1 hB1⟩

/-- Witness of C12: the container holding 5 (address 0) is copied to address 2; the copy is
then assigned 3, assigned the original's payload by copy, assigned the payload of the
container holding 8 (address 1) by move, emplaced from the original's payload as an
lvalue, reset, copy-assigned from the original, or move-assigned from the container
holding 8. -/
theorem C12_copy_independence_witness :
    Engaged (Optional.assign_value natPayload 2 (Arg.ext 3)
      (Optional.ctor_copy natPayload 2 0 w58).2).2 0 5 ∧
    Engaged (Optional.assign_value natPayload 2 (Arg.payload 0)
      (Optional.ctor_copy natPayload 2 0 w58).2).2 0 5 ∧
    Engaged (Optional.assign_rvalue natPayload 2 (Arg.payload 1)
      (Optional.ctor_copy natPayload 2 0 w58).2).2 0 5 ∧
    Engaged (Optional.Emplace natPayload 2 (Pack.lvalue 0)
      (Optional.ctor_copy natPayload 2 0 w58).2).2 0 5 ∧
    Engaged (Optional.Reset 2 (Optional.ctor_copy natPayload 2 0 w58).2).2 0 5 ∧
    Engaged (Optional.assign_copy natPayload 2 0
      (Optional.ctor_copy natPayload 2 0 w58).2).2 0 5 ∧
    Engaged (Optional.assign_move natPayload 2 1
      (Optional.ctor_copy natPayload 2 0 w58).2).2 0 5 :=
  have h := C12_copy_independence natPayload w58 0 2 5 5 (by decide) ⟨rfl, rfl, rfl⟩ rfl
  ⟨h.2.2.1 (Arg.ext 3), h.2.2.1 (Arg.payload 0), h.2.2.2.1 (Arg.payload 1) rfl,
   h.2.2.2.2.1 (Pack.lvalue 0) rfl, h.2.2.2.2.2.1,
   h.2.2.2.2.2.2.1 0 ⟨⟨fun _ => rfl, fun _ => rfl⟩, fun _ => rfl⟩,
   h.2.2.2.2.2.2.2 1 (by decide) ⟨⟨fun _ => rfl, fun _ => rfl⟩, fun _ => rfl⟩⟩

/-- The accessors that return a reference, a pointer or the flag do not change the world. -/
theorem readonly_world {T : Type} (w : World T) (this : Addr) :
    (Optional.HasValue this w).2 = w ∧ (Optional.star this w).2 = w ∧
    (Optional.star_const this w).2 = w ∧ (Optional.arrow this w).2 = w ∧
    (Optional.arrow_const this w).2 = w ∧ (Optional.Value this w).2 = w ∧
    (Optional.Value_const this w).2 = w := by
  cases h1 : (w.objs this).is_initialized_ <;> cases h2 : (w.objs this).value_ <;>
    simp [Optional.HasValue, Optional.star, Optional.star_const, Optional.arrow,
      Optional.arrow_const, Optional.Value, Optional.Value_const, bind, pure, h1, h2]

/-- Moving the payload out of a container keeps the invariant of every container. -/
theorem step_moveOut {T A : Type} (P : Payload T A) (w : World T) (this : Addr)
    (hI : ∀ a, Inv w a) :
    (∀ a, Inv (Optional.star_rvalue P this w).2 a) ∧
    (∀ a, Inv (Optional.Value_rvalue P this w).2 a) := by
  rcases (Inv_iff_WF w this).1 (hI this) with ⟨h1, h3⟩ | ⟨x, h1, h2, h3⟩
  · cases h2 : (w.objs this).value_ with
    | none =>
      simp [Optional.star_rvalue, Optional.Value_rvalue, Optional.HasValue, bind, pure,
        h1, h2, h3]
      exact hI
    | some p =>
      rcases (Inv_iff_WF w p).1 (hI p) with ⟨g1, g3⟩ | ⟨y, g1, g2, g3⟩
      · simp [Optional.star_rvalue, Optional.Value_rvalue, Optional.HasValue, bind, pure,
          h1, h2, h3, g3]
        exact hI
      · cases h5 : (P.moveCtor y).1 <;>
          simp [Optional.star_rvalue, Optional.Value_rvalue, Optional.HasValue, bind, pure,
            h1, h2, h3, g3, h5] <;>
        · refine ⟨fun a => ?_, hI⟩
          have ha := hI a
          by_cases ea : a = p
          · subst ea
            simp [Inv, FlagIffLive, g1, g2]
          · simpa [Inv, FlagIffLive, ea] using ha
  · cases h5 : (P.moveCtor x).1 <;>
      simp [Optional.star_rvalue, Optional.Value_rvalue, Optional.HasValue, bind, pure,
        h1, h2, h3, h5] <;>
    · intro a
      have ha := hI a
      by_cases ea : a = this
      · subst ea
        simp [Inv, FlagIffLive, h1, h2]
      · simpa [Inv, FlagIffLive, ea] using ha

/-- C13: the engagement invariant.  With the state modelled by the members, the predicate
"the flag is true iff the storage holds a constructed, not yet destroyed payload" holds
after default construction and after construction from a value; and, together with the
fact that `value_` then designates the own storage, it is established by every
constructor and kept by every public member function that returns normally: copy and move
construction, the four assignment operators, `Reset`, `Emplace`, `HasValue`, `Value` and
the dereference and arrow operators, whatever their reference parameters are bound to. -/
theorem C13_engagement_invariant {T A : Type} (P : Payload T A) (this : Addr) :
    (∀ w : World T, FlagIffLive (Optional.ctor_default this w).2 this) ∧
    (∀ (w : World T) arg, (Optional.ctor_value P this arg w).1 = Res.ok () →
      FlagIffLive (Optional.ctor_value P this arg w).2 this) ∧
    (∀ (w : World T) arg, (Optional.ctor_rvalue P this arg w).1 = Res.ok () →
      FlagIffLive (Optional.ctor_rvalue P this arg w).2 this) ∧
    (∀ (w : World T) a, Inv w a → FlagIffLive w a) ∧
    Establishes this (Optional.ctor_default this : M T Unit) ∧
    (∀ arg, Establishes this (Optional.ctor_value P this arg)) ∧
    (∀ arg, Establishes this (Optional.ctor_rvalue P this arg)) ∧
    (∀ other, Establishes this (Optional.ctor_copy P this other)) ∧
    (∀ other, Establishes this (Optional.ctor_move P this other)) ∧
    (∀ arg, Preserves (Optional.assign_value P this arg)) ∧
    (∀ arg, Preserves (Optional.assign_rvalue P this arg)) ∧
    (∀ rhs, Preserves (Optional.assign_copy P this rhs)) ∧
    (∀ rhs, Preserves (Optional.assign_move P this rhs)) ∧
    Preserves (Optional.Reset this : M T Unit) ∧
    (∀ args, Preserves (Optional.Emplace P this args)) ∧
    Preserves (Optional.HasValue this : M T Bool) ∧
    Preserves (Optional.Value this : M T Addr) ∧
    Preserves (Optional.Value_const this : M T Addr) ∧
    Preserves (Optional.Value_rvalue P this) ∧
    Preserves (Optional.star this : M T Addr) ∧
    Preserves (Optional.star_const this : M T Addr) ∧
    Preserves (Optional.star_rvalue P this) ∧
    Preserves (Optional.arrow this : M T (Option Addr)) ∧
    Preserves (Optional.arrow_const this : M T (Option Addr)) := by
  refine ⟨?_, ?_, ?_, fun _ _ h => h.1, ?_, ?_, ?_, ?_, ?_, ?_, ?_, ?_, ?_, ?_, ?_, ?_, ?_,
    ?_, ?_, ?_, ?_, ?_, ?_, ?_⟩
  · intro w
    simp [FlagIffLive, Optional.ctor_default]
  · intro w arg
    cases arg with
    | ext v =>
      cases h5 : P.copyCtor v <;> simp [FlagIffLive, Optional.ctor_value, bind, pure, h5]
    | payload b =>
      by_cases hb : b = this
      · subst hb
        simp [FlagIffLive, Optional.ctor_value, bind, pure]
      · have hb2 : this ≠ b := fun e => hb e.symm
        cases hc : (w.objs b).data_ with
        | none => simp [FlagIffLive, Optional.ctor_value, bind, pure, hc, hb, hb2]
        | some y =>
          cases h5 : P.copyCtor y <;>
            simp [FlagIffLive, Optional.ctor_value, bind, pure, hc, hb, hb2, h5]
  · intro w arg
    cases arg with
    | ext v =>
      cases h5 : (P.moveCtor v).1 <;>
        simp [FlagIffLive, Optional.ctor_rvalue, bind, pure, h5]
    | payload b =>
      by_cases hb : b = this
      · subst hb
        simp [FlagIffLive, Optional.ctor_rvalue, bind, pure]
      · have hb2 : this ≠ b := fun e => hb e.symm
        cases hc : (w.objs b).data_ with
        | none => simp [FlagIffLive, Optional.ctor_rvalue, bind, pure, hc, hb, hb2]
        | some y =>
          cases h5 : (P.moveCtor y).1 <;>
            simp [FlagIffLive, Optional.ctor_rvalue, bind, pure, hc, hb, hb2, h5]
  · exact fun w hI _ _ a => ((step_ctor_default w this hI).2 a).1
  · exact fun v w hI _ hok a => ((step_ctor_value P w this v hI).2 hok a).1
  · exact fun v w hI _ hok a => ((step_ctor_rvalue P w this v hI).2 hok a).1
  · exact fun o w hI _ hok a => ((step_ctor_copy P w this o hI).2 hok a).1
  · exact fun o w hI _ hok a => ((step_ctor_move P w this o hI).2 hok a).1
  · exact fun v w hI _ hok a => ((step_assign_value P w this v hI).2 hok a).1
  · exact fun v w hI _ hok a => ((step_assign_rvalue P w this v hI).2 hok a).1
  · exact fun r w hI _ hok a => ((step_assign_copy P w this r hI).2 hok a).1
  · exact fun r w hI _ hok a => ((step_assign_move P w this r hI).2 hok a).1
  · exact fun w hI _ _ a => ((step_Reset w this hI).2 a).1
  · exact fun g w hI _ hok a => ((step_Emplace P w this g hI).2 hok a).1
  · exact fun w hI _ _ => by rw [(readonly_world w this).1]; exact hI
  · exact fun w hI _ _ => by rw [(readonly_world w this).2.2.2.2.2.1]; exact hI
  · exact fun w hI _ _ => by rw [(readonly_world w this).2.2.2.2.2.2]; exact hI
  · exact fun w hI _ _ => (step_moveOut P w this hI).2
  · exact fun w hI _ _ => by rw [(readonly_world w this).2.1]; exact hI
  · exact fun w hI _ _ => by rw [(readonly_world w this).2.2.1]; exact hI
  · exact fun w hI _ _ => (step_moveOut P w this hI).1
  · exact fun w hI _ _ => by rw [(readonly_world w this).2.2.2.1]; exact hI
  · exact fun w hI _ _ => by rw [(readonly_world w this).2.2.2.2.1]; exact hI

/-- Witness of C13: default construction at address 0 of fresh memory, construction from
5 there, and assignment of 3 to the slot at address 0 of fresh memory. -/
theorem C13_engagement_invariant_witness :
    FlagIffLive (Optional.ctor_default 0 (World.fresh : World Nat)).2 0 ∧
    Inv (Optional.ctor_value natPayload 0 (Arg.ext 5) World.fresh).2 0 ∧
    Inv (Optional.assign_value natPayload 0 (Arg.ext 3) World.fresh).2 0 :=
  ⟨(C13_engagement_invariant natPayload 0).1 World.fresh,
   (C13_engagement_invariant natPayload 0).2.2.2.2.2.1 (Arg.ext 5) World.fresh
     (fun a _ => Inv_fresh a) () rfl 0,
   (C13_engagement_invariant natPayload 0).2.2.2.2.2.2.2.2.2.1 (Arg.ext 3) World.fresh
     Inv_fresh () rfl 0⟩

/-- C14 at the failing input: a default-constructed container (and one that was `Reset()`)
is assigned a raw value whose construction throws, by either overload.  The exception
propagates, and the container is left with `is_initialized_ == true` and no live payload:
`HasValue()` reports true, `Value()` does not throw `BadOptionalAccess` but dereferences
`value_`, and `Reset()` and the destructor call the payload destructor on storage in
which nothing is alive. -/
theorem C14_failed_assign_leaves_flag_set :
    Empty wEmpty 0 ∧
    (Optional.assign_value pickyPayload 0 (Arg.ext 0) wEmpty).1 = Res.thrown Exn.payload ∧
    (Optional.assign_value pickyPayload 0 (Arg.ext 0) wEmpty).2.objs 0
      = { data_ := none, value_ := none, is_initialized_ := true } ∧
    ¬ Empty (Optional.assign_value pickyPayload 0 (Arg.ext 0) wEmpty).2 0 ∧
    ¬ FlagIffLive (Optional.assign_value pickyPayload 0 (Arg.ext 0) wEmpty).2 0 ∧
    (Optional.HasValue 0 (Optional.assign_value pickyPayload 0 (Arg.ext 0) wEmpty).2).1 = Res.ok true ∧
    (Optional.Value 0 (Optional.assign_value pickyPayload 0 (Arg.ext 0) wEmpty).2).1 = Res.ub ∧
    (Optional.Reset 0 (Optional.assign_value pickyPayload 0 (Arg.ext 0) wEmpty).2).1 = Res.ub ∧
    (Optional.dtor 0 (Optional.assign_value pickyPayload 0 (Arg.ext 0) wEmpty).2).1 = Res.ub ∧
    (Optional.assign_rvalue pickyPayload 0 (Arg.ext 0) wEmpty).1 = Res.thrown Exn.payload ∧
    (Optional.assign_rvalue pickyPayload 0 (Arg.ext 0) wEmpty).2.objs 0
      = { data_ := none, value_ := none, is_initialized_ := true } ∧
    Empty wReset 0 ∧
    (Optional.assign_value pickyPayload 0 (Arg.ext 0) wReset).1 = Res.thrown Exn.payload ∧
    (Optional.assign_value pickyPayload 0 (Arg.ext 0) wReset).2.objs 0
      = { data_ := none, value_ := some 0, is_initialized_ := true } ∧
    (Optional.Value 0 (Optional.assign_value pickyPayload 0 (Arg.ext 0) wReset).2).1 = Res.ok 0 ∧
    readRef (Optional.Value 0 (Optional.assign_value pickyPayload 0 (Arg.ext 0) wReset).2) = none ∧
    (Optional.dtor 0 (Optional.assign_value pickyPayload 0 (Arg.ext 0) wReset).2).1 = Res.ub := by
  refine ⟨⟨rfl, rfl⟩, rfl, rfl, ?_, ?_, rfl, rfl, rfl, rfl, rfl, rfl, ⟨rfl, rfl⟩, rfl, rfl,
    rfl, rfl, rfl⟩
  · intro h
    exact absurd h.1 (by decide)
  · intro h
    exact absurd (h.1 rfl) (by decide)

/-- The sibling path does what C14 asks: copy assignment from a container sets the flag only
after the construction, so when the construction throws the container is still Empty. -/
theorem assign_copy_throw_stays_empty {T A : Type} (P : Payload T A) (w : World T)
    (this rhs : Addr) (x : T) (hne : this ≠ rhs) (h1 : Empty w this) (h2 : Engaged w rhs x)
    (hc : P.copyCtor x = none) :
    (Optional.assign_copy P this rhs w).1 = Res.thrown Exn.payload ∧
    Empty (Optional.assign_copy P this rhs w).2 this := by
  have hne2 : rhs ≠ this := fun h => hne h.symm
  obtain ⟨a1, a3⟩ := h1
  obtain ⟨g1, g2, g3⟩ := h2
  simp [Optional.assign_copy, Optional.star_const, Optional.HasValue, Empty, bind, pure,
    a1, a3, g1, g2, g3, hc, hne, hne2]

/-- C15: on an Engaged container, copy assignment and move assignment from a distinct
Engaged container, and assignment from a raw value by either overload, run exactly one
payload operation, the payload's (copy or move) assignment operator on the existing
payload: the trace gains that one event, so for every container the numbers of payloads
constructed and destroyed are unchanged.  The raw value is a reference bound to any live
object holding `v`: an object outside all containers (`Arg.ext v`, for every `v`) or the
payload of a container, this one included. -/
theorem C15_engaged_assign_reuses_payload {T A : Type} (P : Payload T A) (w : World T)
    (this : Addr) (a : T) (h1 : Engaged w this a) :
    (∀ rhs b, this ≠ rhs → Engaged w rhs b →
      ((Optional.assign_copy P this rhs w).2.trace
          = w.trace ++ [⟨Op.copyAssign, some this, (P.copyAssign a b).2⟩] ∧
        ∀ c, constructed (Optional.assign_copy P this rhs w).2.trace c = constructed w.trace c ∧
          destroyed (Optional.assign_copy P this rhs w).2.trace c = destroyed w.trace c) ∧
      ((Optional.assign_move P this rhs w).2.trace
          = w.trace ++ [⟨Op.moveAssign, some this, (P.moveAssign a b).2⟩] ∧
        ∀ c, constructed (Optional.assign_move P this rhs w).2.trace c = constructed w.trace c ∧
          destroyed (Optional.assign_move P this rhs w).2.trace c = destroyed w.trace c)) ∧
    (∀ arg v, arg.read w = some v →
      ((Optional.assign_value P this arg w).2.trace
          = w.trace ++ [⟨Op.copyAssign, some this, (P.copyAssign a v).2⟩] ∧
        ∀ c, constructed (Optional.assign_value P this arg w).2.trace c
            = constructed w.trace c ∧
          destroyed (Optional.assign_value P this arg w).2.trace c = destroyed w.trace c) ∧
      ((Optional.assign_rvalue P this arg w).2.trace
          = w.trace ++ [⟨Op.moveAssign, some this, (P.moveAssign a v).2⟩] ∧
        ∀ c, constructed (Optional.assign_rvalue P this arg w).2.trace c
            = constructed w.trace c ∧
          destroyed (Optional.assign_rvalue P this arg w).2.trace c = destroyed w.trace c)) := by
  obtain ⟨a1, a2, a3⟩ := h1
  constructor
  · rintro rhs b hne ⟨g1, g2, g3⟩
    have hne2 : rhs ≠ this := fun h => hne h.symm
    constructor
    · cases h5 : (P.copyAssign a b).2 <;>
        simp [Optional.assign_copy, Optional.HasValue, bind, pure, a1, a2, a3, g1, g2, g3,
          h5, hne, hne2, constructed, destroyed, List.countP_append, Event.constructsAt,
          Event.destroysAt]
    · cases h5 : (P.moveAssign a b).2 <;>
        simp [Optional.assign_move, Optional.HasValue, bind, pure, a1, a2, a3, g1, g2, g3,
          h5, hne, hne2, constructed, destroyed, List.countP_append, Event.constructsAt,
          Event.destroysAt]
  · intro arg v hv
    cases arg with
    | ext u =>
      simp at hv
      subst hv
      constructor
      · cases h5 : (P.copyAssign a u).2 <;>
          simp [Optional.assign_value, Optional.HasValue, bind, pure, a1, a2, a3, h5,
            constructed, destroyed, List.countP_append, Event.constructsAt,
            Event.destroysAt]
      · cases h5 : (P.moveAssign a u).2 <;>
          simp [Optional.assign_rvalue, Optional.HasValue, bind, pure, a1, a2, a3, h5,
            constructed, destroyed, List.countP_append, Event.constructsAt,
            Event.destroysAt]
    | payload b =>
      simp at hv
      by_cases hb : b = this
      · subst hb
        have hav : a = v := by simpa [a3] using hv
        subst hav
        constructor
        · cases h5 : (P.copyAssign a a).2 <;>
            simp [Optional.assign_value, Optional.HasValue, bind, pure, a1, a2, a3, h5,
              constructed, destroyed, List.countP_append, Event.constructsAt,
              Event.destroysAt]
        · cases h5 : (P.moveAssign a a).2 <;>
            simp [Optional.assign_rvalue, Optional.HasValue, bind, pure, a1, a2, a3, h5,
              constructed, destroyed, List.countP_append, Event.constructsAt,
              Event.destroysAt]
      · have hb2 : this ≠ b := fun e => hb e.symm
        constructor
        · cases h5 : (P.copyAssign a v).2 <;>
            simp [Optional.assign_value, Optional.HasValue, bind, pure, a1, a2, a3, h5, hv,
              hb, hb2, constructed, destroyed, List.countP_append, Event.constructsAt,
              Event.destroysAt]
        · cases h5 : (P.moveAssign a v).2 <;>
            simp [Optional.assign_rvalue, Optional.HasValue, bind, pure, a1, a2, a3, h5, hv,
              hb, hb2, constructed, destroyed, List.countP_append, Event.constructsAt,
              Event.destroysAt]

/-- Witness of C15: the container holding 5 assigned from the one holding 8, and assigned
the raw value 3. -/
theorem C15_engaged_assign_reuses_payload_witness :
    (Optional.assign_copy natPayload 0 1 w58).2.trace
      = w58.trace ++ [⟨Op.copyAssign, some 0, true⟩] ∧
    (Optional.assign_move natPayload 0 1 w58).2.trace
      = w58.trace ++ [⟨Op.moveAssign, some 0, true⟩] ∧
    (Optional.assign_value natPayload 0 (Arg.ext 3) w58).2.trace
      = w58.trace ++ [⟨Op.copyAssign, some 0, true⟩] ∧
    constructed (Optional.assign_value natPayload 0 (Arg.ext 3) w58).2.trace 0
      = constructed w58.trace 0 ∧
    (Optional.assign_rvalue natPayload 0 (Arg.payload 1) w58).2.trace
      = w58.trace ++ [⟨Op.moveAssign, some 0, true⟩] :=
  ⟨((C15_engaged_assign_reuses_payload natPayload w58 0 5 ⟨rfl, rfl, rfl⟩).1 1 8 (by decide)
      ⟨rfl, rfl, rfl⟩).1.1,
   ((C15_engaged_assign_reuses_payload natPayload w58 0 5 ⟨rfl, rfl, rfl⟩).1 1 8 (by decide)
      ⟨rfl, rfl, rfl⟩).2.1,
   ((C15_engaged_assign_reuses_payload natPayload w58 0 5 ⟨rfl, rfl, rfl⟩).2
      (Arg.ext 3) 3 rfl).1.1,
   (((C15_engaged_assign_reuses_payload natPayload w58 0 5 ⟨rfl, rfl, rfl⟩).2
      (Arg.ext 3) 3 rfl).1.2 0).1,
   ((C15_engaged_assign_reuses_payload natPayload w58 0 5 ⟨rfl, rfl, rfl⟩).2
      (Arg.payload 1) 8 rfl).2.1⟩

/-- C16: moving from a container never changes the source's engagement flag.  For every
state of the source (Empty or Engaged), after move-constructing a new container from it,
and after move-assigning it to a distinct container in any of the four cases, the source's
`HasValue()` is what it was before; an Engaged source stays Engaged and holds the
moved-from payload the payload type's move constructor or move assignment left. -/
theorem C16_move_keeps_source_flag {T A : Type} (P : Payload T A) (w : World T)
    (this rhs : Addr) (hne : this ≠ rhs) (hR : WF w rhs) :
    (Optional.HasValue rhs (Optional.ctor_move P this rhs w).2).1
      = (Optional.HasValue rhs w).1 ∧
    (WF w this →
      (Optional.HasValue rhs (Optional.assign_move P this rhs w).2).1
        = (Optional.HasValue rhs w).1) ∧
    (∀ x, Engaged w rhs x →
      Engaged (Optional.ctor_move P this rhs w).2 rhs (P.moveCtor x).2) ∧
    (∀ x, Engaged w rhs x → Empty w this →
      Engaged (Optional.assign_move P this rhs w).2 rhs (P.moveCtor x).2) ∧
    (∀ x a, Engaged w rhs x → Engaged w this a →
      Engaged (Optional.assign_move P this rhs w).2 rhs (P.moveAssign a x).1.2) := by
  have hne2 : rhs ≠ this := fun h => hne h.symm
  refine ⟨?_, ?_, ?_, ?_, ?_⟩
  · rcases hR with ⟨g1, g3⟩ | ⟨y, g1, g2, g3⟩
    · simp [Optional.ctor_move, Optional.star, Optional.HasValue, bind, pure, g1, g3,
        hne, hne2]
    · cases h5 : (P.moveCtor y).1 <;>
        simp [Optional.ctor_move, Optional.star, Optional.HasValue, bind, pure, g1, g2, g3,
          h5, hne, hne2]
  · intro hT
    rcases hT with ⟨h1, h3⟩ | ⟨x, h1, h2, h3⟩ <;>
    rcases hR with ⟨g1, g3⟩ | ⟨y, g1, g2, g3⟩
    · simp [Optional.assign_move, Optional.star, Optional.HasValue, bind, pure, h1, h3,
        g1, g3]
    · cases h5 : (P.moveCtor y).1 <;>
        simp [Optional.assign_move, Optional.star, Optional.HasValue, bind, pure, h1, h3,
          g1, g2, g3, h5, hne, hne2]
    · simp [Optional.assign_move, Optional.star, Optional.HasValue, bind, pure, h1, h2, h3,
        g1, g3, hne, hne2]
    · cases h5 : (P.moveAssign x y).2 <;>
        simp [Optional.assign_move, Optional.star, Optional.HasValue, bind, pure, h1, h2,
          h3, g1, g2, g3, h5, hne, hne2]
  · rintro x ⟨g1, g2, g3⟩
    cases h5 : (P.moveCtor x).1 <;>
      simp [Optional.ctor_move, Optional.star, Optional.HasValue, Engaged, bind, pure,
        g1, g2, g3, h5, hne, hne2]
  · rintro x ⟨g1, g2, g3⟩ ⟨h1, h3⟩
    cases h5 : (P.moveCtor x).1 <;>
      simp [Optional.assign_move, Optional.star, Optional.HasValue, Engaged, bind, pure,
        h1, h3, g1, g2, g3, h5, hne, hne2]
  · rintro x a ⟨g1, g2, g3⟩ ⟨h1, h2, h3⟩
    cases h5 : (P.moveAssign a x).2 <;>
      simp [Optional.assign_move, Optional.star, Optional.HasValue, Engaged, bind, pure,
        h1, h2, h3, g1, g2, g3, h5, hne, hne2]

/-- Witness of C16: the container holding 5 is moved into a new container at address 2,
and move-assigned to the default-constructed container at address 1; it stays Engaged,
holding the moved-from value 0. -/
theorem C16_move_keeps_source_flag_witness :
    (Optional.HasValue 0 (Optional.ctor_move natPayload 2 0 w5e).2).1
      = (Optional.HasValue 0 w5e).1 ∧
    (Optional.HasValue 0 (Optional.assign_move natPayload 1 0 w5e).2).1
      = (Optional.HasValue 0 w5e).1 ∧
    Engaged (Optional.assign_move natPayload 1 0 w5e).2 0 0 :=
  ⟨(C16_move_keeps_source_flag natPayload w5e 2 0 (by decide)
      (Or.inr ⟨5, rfl, rfl, rfl⟩)).1,
   (C16_move_keeps_source_flag natPayload w5e 1 0 (by decide)
      (Or.inr ⟨5, rfl, rfl, rfl⟩)).2.1 (Or.inl ⟨rfl, rfl⟩),
   (C16_move_keeps_source_flag natPayload w5e 1 0 (by decide)
      (Or.inr ⟨5, rfl, rfl, rfl⟩)).2.2.2.1 5 ⟨rfl, rfl, rfl⟩ ⟨rfl, rfl⟩⟩

/-- C17: when the construction of the new payload throws during `Emplace`, the exception
propagates and the container is left Empty from every prior state: a payload held before
was destroyed exactly once, before the construction attempt; the flag is false; and a
later `Reset()` or destruction of the container changes nothing and destroys nothing.
The pack is any pack whose construction throws: arguments outside all containers
(`Pack.args`), or a reference to the live payload of another container. -/
theorem C17_Emplace_throw_leaves_empty {T A : Type} (P : Payload T A) (w : World T)
    (this : Addr) (args : Pack T A) (hself : args.refers this = false)
    (hc : args.throws P w = true) :
    (Empty w this →
      (Optional.Emplace P this args w).1 = Res.thrown Exn.payload ∧
      Empty (Optional.Emplace P this args w).2 this ∧
      (Optional.Emplace P this args w).2.trace
        = w.trace ++ [⟨args.op, some this, false⟩]) ∧
    (∀ x, Engaged w this x →
      (Optional.Emplace P this args w).1 = Res.thrown Exn.payload ∧
      Empty (Optional.Emplace P this args w).2 this ∧
      (Optional.Emplace P this args w).2.trace
        = w.trace ++ [⟨Op.destroy, some this, true⟩, ⟨args.op, some this, false⟩]) ∧
    (WF w this →
      (Optional.HasValue this (Optional.Emplace P this args w).2).1 = Res.ok false ∧
      Optional.Reset this (Optional.Emplace P this args w).2
        = (Res.ok (), (Optional.Emplace P this args w).2) ∧
      Optional.dtor this (Optional.Emplace P this args w).2
        = (Res.ok (), (Optional.Emplace P this args w).2)) := by
  cases args with
  | args v =>
    have hc : P.construct v = none := by simpa using hc
    refine ⟨?_, ?_, ?_⟩
    · rintro ⟨h1, h3⟩
      simp [Optional.Emplace, Optional.Reset, Optional.HasValue, Empty, bind, pure, h1, h3,
        hc]
    · rintro x ⟨h1, h2, h3⟩
      simp [Optional.Emplace, Optional.Reset, Optional.HasValue, Empty, bind, pure, h1, h2,
        h3, hc]
    · rintro (⟨h1, h3⟩ | ⟨x, h1, h2, h3⟩)
      · simp [Optional.Emplace, Optional.Reset, Optional.dtor, Optional.HasValue, bind, pure,
          h1, h3, hc]
      · simp [Optional.Emplace, Optional.Reset, Optional.dtor, Optional.HasValue, bind, pure,
          h1, h2, h3, hc]
  | lvalue b =>
    have hb : b ≠ this := by simpa using hself
    have hb2 : this ≠ b := fun e => hb e.symm
    cases hd : (w.objs b).data_ with
    | none => simp [hd] at hc
    | some y =>
      have hc : P.copyCtor y = none := by simpa [hd] using hc
      refine ⟨?_, ?_, ?_⟩
      · rintro ⟨h1, h3⟩
        simp [Optional.Emplace, Optional.Reset, Optional.HasValue, Empty, bind, pure, h1,
          h3, hc, hd, hb, hb2]
      · rintro x ⟨h1, h2, h3⟩
        simp [Optional.Emplace, Optional.Reset, Optional.HasValue, Empty, bind, pure, h1,
          h2, h3, hc, hd, hb, hb2]
      · rintro (⟨h1, h3⟩ | ⟨x, h1, h2, h3⟩)
        · simp [Optional.Emplace, Optional.Reset, Optional.dtor, Optional.HasValue, bind,
            pure, h1, h3, hc, hd, hb, hb2]
        · simp [Optional.Emplace, Optional.Reset, Optional.dtor, Optional.HasValue, bind,
            pure, h1, h2, h3, hc, hd, hb, hb2]
  | rvalue b =>
    have hb : b ≠ this := by simpa using hself
    have hb2 : this ≠ b := fun e => hb e.symm
    cases hd : (w.objs b).data_ with
    | none => simp [hd] at hc
    | some y =>
      have hc : (P.moveCtor y).1 = none := by simpa [hd] using hc
      refine ⟨?_, ?_, ?_⟩
      · rintro ⟨h1, h3⟩
        simp [Optional.Emplace, Optional.Reset, Optional.HasValue, Empty, bind, pure, h1,
          h3, hc, hd, hb, hb2]
      · rintro x ⟨h1, h2, h3⟩
        simp [Optional.Emplace, Optional.Reset, Optional.HasValue, Empty, bind, pure, h1,
          h2, h3, hc, hd, hb, hb2]
      · rintro (⟨h1, h3⟩ | ⟨x, h1, h2, h3⟩)
        · simp [Optional.Emplace, Optional.Reset, Optional.dtor, Optional.HasValue, bind,
            pure, h1, h3, hc, hd, hb, hb2]
        · simp [Optional.Emplace, Optional.Reset, Optional.dtor, Optional.HasValue, bind,
            pure, h1, h2, h3, hc, hd, hb, hb2]

/-- Witness of C17: `Emplace(0)`, whose construction throws, on the container holding 5 and
on the default-constructed one. -/
theorem C17_Emplace_throw_leaves_empty_witness :
    ((Optional.Emplace pickyPayload 0 (Pack.args 0) wPicky).1 = Res.thrown Exn.payload ∧
      Empty (Optional.Emplace pickyPayload 0 (Pack.args 0) wPicky).2 0 ∧
      (Optional.Emplace pickyPayload 0 (Pack.args 0) wPicky).2.trace
        = wPicky.trace ++ [⟨Op.destroy, some 0, true⟩, ⟨Op.construct, some 0, false⟩]) ∧
    ((Optional.Emplace pickyPayload 1 (Pack.args 0) wPicky).1 = Res.thrown Exn.payload ∧
      Empty (Optional.Emplace pickyPayload 1 (Pack.args 0) wPicky).2 1 ∧
      (Optional.Emplace pickyPayload 1 (Pack.args 0) wPicky).2.trace
        = wPicky.trace ++ [⟨Op.construct, some 1, false⟩]) ∧
    Optional.dtor 0 (Optional.Emplace pickyPayload 0 (Pack.args 0) wPicky).2
      = (Res.ok (), (Optional.Emplace pickyPayload 0 (Pack.args 0) wPicky).2) :=
  ⟨(C17_Emplace_throw_leaves_empty pickyPayload wPicky 0 (Pack.args 0) rfl rfl).2.1 5
      ⟨rfl, rfl, rfl⟩,
   (C17_Emplace_throw_leaves_empty pickyPayload wPicky 1 (Pack.args 0) rfl rfl).1
      ⟨rfl, rfl⟩,
   ((C17_Emplace_throw_leaves_empty pickyPayload wPicky 0 (Pack.args 0) rfl rfl).2.2
      (Or.inr ⟨5, rfl, rfl, rfl⟩)).2.2⟩

/-- C18: on an Engaged container the unchecked and the checked access paths agree:
`operator*` and `Value()` give the same result in the same world for the lvalue, const and
rvalue overloads, the pointer `operator->` returns designates the object `Value()` refers
to, and that object is the payload.  In every state, `HasValue()` and the lvalue and const
accessors leave the world, hence the flag and the payload, unchanged. -/
theorem C18_access_paths_agree {T A : Type} (P : Payload T A) (w : World T) (this : Addr) :
    (∀ v, Engaged w this v →
      Optional.star this w = Optional.Value this w ∧
      Optional.star_const this w = Optional.Value_const this w ∧
      Optional.star_rvalue P this w = Optional.Value_rvalue P this w ∧
      M.bind (Optional.arrow this) pointee w = Optional.Value this w ∧
      M.bind (Optional.arrow_const this) pointee w = Optional.Value_const this w ∧
      readRef (Optional.star this w) = some v ∧
      readRef (Optional.Value this w) = some v) ∧
    ((Optional.HasValue this w).2 = w ∧ (Optional.star this w).2 = w ∧
      (Optional.star_const this w).2 = w ∧ (Optional.arrow this w).2 = w ∧
      (Optional.arrow_const this w).2 = w ∧ (Optional.Value this w).2 = w ∧
      (Optional.Value_const this w).2 = w) := by
  refine ⟨?_, readonly_world w this⟩
  rintro v ⟨h1, h2, h3⟩
  simp [Optional.star, Optional.star_const, Optional.star_rvalue, Optional.arrow,
    Optional.arrow_const, Optional.Value, Optional.Value_const, Optional.Value_rvalue,
    Optional.HasValue, bind, pure, h1, h2, h3]

/-- Witness of C18 on the container holding 5. -/
theorem C18_access_paths_agree_witness :
    Optional.star 0 w5 = Optional.Value 0 w5 ∧
    Optional.star_rvalue natPayload 0 w5 = Optional.Value_rvalue natPayload 0 w5 ∧
    readRef (Optional.star 0 w5) = some 5 :=
  have h := (C18_access_paths_agree natPayload w5 0).1 5 ⟨rfl, rfl, rfl⟩
  ⟨h.1, h.2.2.1, h.2.2.2.2.2.1⟩

end OptionalModel
